import Mathlib

/-!
Verification development for the kluctl Kubernetes resource-access layer
(`pkg/k8s/k8s_cluster.go`).  The Go code is shallowly embedded: pure data
manipulation becomes Lean functions, the network is an explicit environment
mapping each request to its outcome, and the concurrent worker pool and the
client pool become deterministic folds respectively a labelled transition
system.
-/

namespace KluctlK8s

/-- `schema.GroupVersionKind`: a resource kind identifier. -/
structure GroupVersionKind where
  group : String
  version : String
  kind : String
deriving DecidableEq, Repr

/-- `k8s.ObjectRef`: identity of a single object (GVK + namespace + name). -/
structure ObjectRef where
  gvk : GroupVersionKind
  ns : String
  name : String
deriving DecidableEq, Repr

/-- `ApiWarning` from `k8s_cluster.go`: a warning header captured during one call. -/
structure ApiWarning where
  code : Int
  agent : String
  text : String
deriving DecidableEq, Repr

/-- Classification of the Go `error` values that `k8s_cluster.go` distinguishes.
`notFound` answers `errors.IsNotFound`, `noMatch` answers `meta.IsNoMatchError`,
`transport` stands for any other error from the underlying call, and the two
`failedWaiting…` constructors are the `fmt.Errorf` values built in
`waitForDeletedObject` and `withClientFromPool`. -/
inductive K8sError where
  | notFound
  | noMatch
  | contextCancelled
  | transport (msg : String)
  | failedWaitingForDeletion (ref : ObjectRef)
  | failedWaitingForFreeClient
deriving DecidableEq, Repr

/-- `errors.IsNotFound`: true exactly for the not-found error. -/
def isNotFound : K8sError → Bool
  | .notFound => true
  | _ => false

/-- `meta.IsNoMatchError`: true exactly for the no-matching-kind error. -/
def isNoMatchError : K8sError → Bool
  | .noMatch => true
  | _ => false

/-- Untyped attribute tree: the model of `uo.UnstructuredObject` /
`map[string]interface{}` values.  Numbers are modelled as integers (the CPU
quantity fields the claims are about are integral). -/
inductive Json where
  | null
  | bool (b : Bool)
  | num (n : Int)
  | str (s : String)
  | arr (elems : List Json)
  | obj (fields : List (String × Json))

/-- First-match lookup of a key in an object's field list (Go map indexing). -/
def lookupField : List (String × Json) → String → Option Json
  | [], _ => none
  | (k, v) :: fs, n => if k = n then some v else lookupField fs n

/-- Go map key-membership test `_, ok := m[k]`. -/
def hasField (fs : List (String × Json)) (n : String) : Bool :=
  (lookupField fs n).isSome

/-- A Go `map[K][]ApiWarning`, modelled as an association list with
replace-on-insert semantics. -/
def WarnMap (κ : Type) : Type := List (κ × List ApiWarning)

/-- The empty warnings map (`make(map[...][]ApiWarning)`). -/
def wmEmpty {κ : Type} : WarnMap κ := []

/-- Go map assignment `m[k] = w`: replaces an existing binding, else appends. -/
def wmInsert {κ : Type} [DecidableEq κ] : WarnMap κ → κ → List ApiWarning → WarnMap κ
  | [], r, w => [(r, w)]
  | (k, v) :: rest, r, w =>
    if k = r then (r, w) :: rest else (k, v) :: wmInsert rest r w

/-- Whether `r` is a key of the warnings map. -/
def wmHasKey {κ : Type} [DecidableEq κ] : WarnMap κ → κ → Bool
  | [], _ => false
  | (k, _) :: rest, r => if k = r then true else wmHasKey rest r

/-- Outcome of one `GetSingleObject` call: the environment's answer for a ref.
Warnings can accompany both success and failure, because
`withClientFromPool` returns the collected warnings regardless of the
callback's error. -/
inductive GetOutcome where
  | ok (o : Json) (w : List ApiWarning)
  | err (e : K8sError) (w : List ApiWarning)

/-- Outcome of one `ListObjects`/`ListObjectsMetadata` call for a kind. -/
inductive ListOutcome where
  | ok (l : List Json) (w : List ApiWarning)
  | err (e : K8sError) (w : List ApiWarning)

/-- Loop body of `GetObjectsByRefs`, threading the `ret` and `retApiWarnings`
accumulators.  Modelled from the spec: `utils.NewWorkerPoolWithErrors` is not
under `src/`; per the spec, units run in submission order, the pool stops
accepting further submissions after the first hard per-unit error, and
`StopWait` returns that first error.  Per the source (lines 338-353): warnings
are recorded before the error check, not-found and no-matching-kind errors are
skipped, and a hard error makes the call return `nil, retApiWarnings, err`. -/
def getObjectsByRefsGo (env : ObjectRef → GetOutcome) :
    List ObjectRef → List Json → WarnMap ObjectRef →
    List Json × WarnMap ObjectRef × Option K8sError
  | [], ret, wm => (ret, wm, none)
  | r :: rest, ret, wm =>
    match env r with
    | .ok o w =>
      getObjectsByRefsGo env rest (ret ++ [o])
        (if w.isEmpty then wm else wmInsert wm r w)
    | .err e w =>
      let wm' := if w.isEmpty then wm else wmInsert wm r w
      if isNotFound e || isNoMatchError e then
        getObjectsByRefsGo env rest ret wm'
      else ([], wm', some e)

/-- `GetObjectsByRefs` (k8s_cluster.go lines 328-361). -/
def GetObjectsByRefs (env : ObjectRef → GetOutcome) (refs : List ObjectRef) :
    List Json × WarnMap ObjectRef × Option K8sError :=
  getObjectsByRefsGo env refs [] wmEmpty

/-- Loop body of `ListAllObjects`.  Per the source (lines 284-311): only
`errors.IsNotFound` is excused (`meta.IsNoMatchError` is not), the unit's
partial result (`nil` on error) and its warnings are merged after the error
check, and a hard error makes the call return `nil, retApiWarnings, err`
without recording the failing unit's warnings. -/
def listAllObjectsGo (env : GroupVersionKind → ListOutcome) :
    List GroupVersionKind → List Json → WarnMap GroupVersionKind →
    List Json × WarnMap GroupVersionKind × Option K8sError
  | [], ret, wm => (ret, wm, none)
  | g :: rest, ret, wm =>
    match env g with
    | .ok l w =>
      listAllObjectsGo env rest (ret ++ l)
        (if w.isEmpty then wm else wmInsert wm g w)
    | .err e w =>
      if isNotFound e then
        listAllObjectsGo env rest ret
          (if w.isEmpty then wm else wmInsert wm g w)
      else ([], wm, some e)

/-- `ListAllObjects` (k8s_cluster.go lines 265-312), over the kind list
produced by `GetFilteredPreferredGVKs`. -/
def ListAllObjects (env : GroupVersionKind → ListOutcome)
    (gvks : List GroupVersionKind) :
    List Json × WarnMap GroupVersionKind × Option K8sError :=
  listAllObjectsGo env gvks [] wmEmpty

/-! ### Server versions (`github.com/hashicorp/go-version`) -/

/-- A server version as its numeric segments.  `versionLessThan` is the
lexicographic comparison `goversion.Version.LessThan` performs on numeric
segments, with a shorter version padded by zero segments. -/
def versionLessThan : List Nat → List Nat → Bool
  | _, [] => false
  | [], b :: bs => if 0 < b then true else versionLessThan [] bs
  | a :: as, b :: bs =>
    if a < b then true else if a = b then versionLessThan as bs else false

/-- `var v1_21, _ = goversion.NewVersion("1.21")`. -/
def v1_21 : List Nat := [1, 21]

/-- `var v1_1000, _ = goversion.NewVersion("1.1000")`. -/
def v1_1000 : List Nat := [1, 1000]

/-! ### The cluster handle -/

/-- `K8sCluster` (k8s_cluster.go lines 35-46).  The context, rest config,
client pool channel and resources cache are pointer-like values shared by the
shallow copy `ReadWrite` performs; they are modelled as opaque identities. -/
structure K8sCluster where
  ctx : Nat
  DryRun : Bool
  restConfig : Nat
  clientPool : Nat
  ServerVersion : List Nat
  Resources : Nat
deriving DecidableEq, Repr

/-- `ReadWrite` (lines 154-158): `k2 := *k; k2.DryRun = false` — a shallow
copy sharing every pointer field, with the dry-run flag forced off. -/
def ReadWrite (k : K8sCluster) : K8sCluster :=
  { k with DryRun := false }

/-! ### JSON paths

Modelled from the spec: `uo.MyJsonPath` (package `pkg/utils/uo` is not under
`src/`).  The spec describes the fixups as transforms over attribute paths;
a path is written as dot-separated field names, each optionally followed by
bracketed list indices (`spec.containers[0].ports`).  A string that does not
fit this grammar is not a valid path and matches nothing.  Go strings are
modelled as character lists so that the source's path-string concatenation is
reproduced exactly. -/

/-- One step of a parsed path. -/
inductive PathSeg where
  | field (name : String)
  | idx (i : Nat)
deriving DecidableEq, Repr

/-- Split a character list at every occurrence of `sep`; returns the first
piece and the later pieces. -/
def splitCore (sep : Char) : List Char → List Char × List (List Char)
  | [] => ([], [])
  | c :: cs =>
    let r := splitCore sep cs
    if c = sep then ([], r.1 :: r.2) else (c :: r.1, r.2)

/-- `strings.Split`: all pieces (always at least one). -/
def splitOnChar (sep : Char) (l : List Char) : List (List Char) :=
  (splitCore sep l).1 :: (splitCore sep l).2

/-- The decimal value of a digit character, if it is one. -/
def digitVal (c : Char) : Option Nat :=
  if c = '0' then some 0
  else if c = '1' then some 1
  else if c = '2' then some 2
  else if c = '3' then some 3
  else if c = '4' then some 4
  else if c = '5' then some 5
  else if c = '6' then some 6
  else if c = '7' then some 7
  else if c = '8' then some 8
  else if c = '9' then some 9
  else none

/-- Accumulating decimal reader over digit characters. -/
def charsToNatAux : List Char → Nat → Option Nat
  | [], acc => some acc
  | c :: cs, acc =>
    match digitVal c with
    | some d => charsToNatAux cs (acc * 10 + d)
    | none => none

/-- Parse a non-empty all-digit character list as a natural number. -/
def charsToNat : List Char → Option Nat
  | [] => none
  | c :: cs => charsToNatAux (c :: cs) 0

/-- The character of a decimal digit (`d < 10`). -/
def digitChar : Nat → Char
  | 0 => '0'
  | 1 => '1'
  | 2 => '2'
  | 3 => '3'
  | 4 => '4'
  | 5 => '5'
  | 6 => '6'
  | 7 => '7'
  | 8 => '8'
  | _ => '9'

/-- Fuelled digit emitter; the fuel only bounds the recursion depth and any
fuel above the value itself is enough. -/
def natToCharsAux : Nat → Nat → List Char
  | 0, _ => []
  | fuel + 1, n =>
    if n < 10 then [digitChar n]
    else natToCharsAux fuel (n / 10) ++ [digitChar (n % 10)]

/-- Decimal rendering of a natural number (`fmt.Sprintf` with the `%d` verb). -/
def natToChars (n : Nat) : List Char :=
  natToCharsAux (n + 1) n

/-- Parse one `[i]` bracket piece: the characters must be exactly digits
followed by the closing bracket. -/
def parseBracketPiece (cs : List Char) : Option Nat :=
  match splitOnChar (']') cs with
  | [ds, rest] => if rest = [] then charsToNat ds else none
  | _ => none

/-- Sequence a list of optional values. -/
def allSome {α : Type} : List (Option α) → Option (List α)
  | [] => some []
  | none :: _ => none
  | some x :: rest => (allSome rest).map (x :: ·)

/-- Parse one dot-separated chunk: a field name optionally followed by
bracketed indices.  Anything after a closing bracket other than another
bracket is malformed. -/
def parseChunk (cs : List Char) : Option (List PathSeg) :=
  match splitOnChar ('[') cs with
  | [] => none
  | name :: brackets =>
    if name = [] then none
    else if name.any (· = ']') then none
    else
      match allSome (brackets.map parseBracketPiece) with
      | some idxs => some (PathSeg.field (String.mk name) :: idxs.map PathSeg.idx)
      | none => none

/-- Parse a whole path string. -/
def parsePath (cs : List Char) : Option (List PathSeg) :=
  (allSome ((splitOnChar ('.') cs).map parseChunk)).map List.flatten

/-- Navigate a parsed path down a tree (`GetFirst…` resolution). -/
def getAtSegs : List PathSeg → Json → Option Json
  | [], j => some j
  | .field n :: rest, .obj fs =>
    match lookupField fs n with
    | some v => getAtSegs rest v
    | none => none
  | .field _ :: _, _ => none
  | .idx i :: rest, .arr es =>
    match es.get? i with
    | some v => getAtSegs rest v
    | none => none
  | .idx _ :: _, _ => none

/-- Apply `f` to the entry of a field list at key `n` (first occurrence). -/
def modifyField (n : String) (f : Json → Json) :
    List (String × Json) → List (String × Json)
  | [] => []
  | (k, v) :: fs => if k = n then (k, f v) :: fs else (k, v) :: modifyField n f fs

/-- Apply `f` to the `i`-th entry of a list, identity when out of range. -/
def modifyNth (i : Nat) (f : Json → Json) : List Json → List Json
  | [] => []
  | x :: xs =>
    match i with
    | 0 => f x :: xs
    | i' + 1 => x :: modifyNth i' f xs

/-- Rewrite the value a parsed path points at (in-place map mutation of the
cloned object in the source); identity when the path does not resolve. -/
def modifyAtSegs : List PathSeg → (Json → Json) → Json → Json
  | [], f, j => f j
  | .field n :: rest, f, .obj fs => .obj (modifyField n (modifyAtSegs rest f) fs)
  | .field _ :: _, _, j => j
  | .idx i :: rest, f, .arr es => .arr (modifyNth i (modifyAtSegs rest f) es)
  | .idx _ :: _, _, j => j

/-- Whether a tree node is a map. -/
def isObjJson : Json → Bool
  | .obj _ => true
  | _ => false

/-! ### `FixObjectForPatch` (k8s_cluster.go lines 427-508) -/

/-- `fmt.Sprintf` with the `%v` verb on a scalar attribute value.  Composite
values never occur as quantity fields; their rendering is summarised. -/
def goFormat : Json → String
  | .null => "<nil>"
  | .bool b => if b then "true" else "false"
  | .num n => toString n
  | .str s => s
  | .arr _ => "[...]"
  | .obj _ => "map[...]"

/-- The body of the `fixPorts` loop for one port entry: add
`protocol = "TCP"` when the key is absent, leave the entry alone otherwise. -/
def fixPortEntry (fs : List (String × Json)) : List (String × Json) :=
  if hasField fs ("protocol") then fs else fs ++ [(("protocol"), Json.str ("TCP"))]

/-- `fixPortEntry` lifted to a tree node. -/
def fixPortJson : Json → Json
  | .obj fs => .obj (fixPortEntry fs)
  | j => j

/-- The in-place update `fixPorts` performs on the list its path matched. -/
def fixPortsValue : Json → Json
  | .arr es => .arr (es.map fixPortJson)
  | j => j

/-- `fixPorts` (lines 441-456): gated on `needsDefaultsFix`; finds the first
list of maps at the path and defaults each entry's protocol.  Modelled from
the spec for `GetFirstListOfMaps` (package `uo` not under `src/`): the path
matches when it parses, resolves, and the value is a list whose members are
all maps. -/
def fixPortsAt (needsDefaultsFix : Bool) (p : List Char) (o : Json) : Json :=
  if needsDefaultsFix = false then o
  else
    match parsePath p with
    | none => o
    | some segs =>
      match getAtSegs segs o with
      | some (.arr es) =>
        if es.all isObjJson then modifyAtSegs segs fixPortsValue o else o
      | _ => o

/-- The in-place update `fixStringType` performs on the map its path matched:
the value under `key` is re-rendered as a string when it is not one already. -/
def fixStringTypeValue (key : String) (v : Json) : Json → Json
  | .obj fs => .obj (modifyField key (fun _ => Json.str (goFormat v)) fs)
  | j => j

/-- `fixStringType` (lines 458-474): gated on `needsTypeConversionFix`; finds
the first map at the path and coerces a non-string value under `key` to its
`%v` string form.  Modelled from the spec for `GetFirstMap` as for
`fixPortsAt`. -/
def fixStringTypeAt (needsTypeConversionFix : Bool) (p : List Char)
    (key : String) (o : Json) : Json :=
  if needsTypeConversionFix = false then o
  else
    match parsePath p with
    | none => o
    | some segs =>
      match getAtSegs segs o with
      | some (.obj d) =>
        match lookupField d key with
        | none => o
        | some (.str _) => o
        | some v => modifyAtSegs segs (fixStringTypeValue key v) o
      | _ => o

/-- `fixContainer` (lines 476-480).  Note the source concatenates
`p + "resources.limits"` and `p + "resources.requests"` without a dot,
while the ports path is `p + ".ports"`. -/
def fixContainerAt (needsDefaultsFix needsTypeConversionFix : Bool)
    (p : List Char) (o : Json) : Json :=
  let o1 := fixPortsAt needsDefaultsFix (p ++ (".ports").toList) o
  let o2 := fixStringTypeAt needsTypeConversionFix
    (p ++ ("resources.limits").toList) ("cpu") o1
  fixStringTypeAt needsTypeConversionFix
    (p ++ ("resources.requests").toList) ("cpu") o2

/-- `fmt.Sprintf` with the `%s[%d]` pattern. -/
def indexedPath (p : List Char) (i : Nat) : List Char :=
  p ++ ('[') :: (natToChars i ++ [(']')])

/-- `fixContainers` (lines 482-490): iterate `fixContainer` over the indices
of the list of maps found at the path. -/
def fixContainersAt (needsDefaultsFix needsTypeConversionFix : Bool)
    (p : List Char) (o : Json) : Json :=
  match parsePath p with
  | none => o
  | some segs =>
    match getAtSegs segs o with
    | some (.arr cs) =>
      if cs.all isObjJson then
        (List.range cs.length).foldl
          (fun acc i =>
            fixContainerAt needsDefaultsFix needsTypeConversionFix
              (indexedPath p i) acc) o
      else o
    | _ => o

/-- `fixLimits` (lines 492-501): coerce the `default` and `defaultRequest`
cpu quantities of each limit-range item. -/
def fixLimitsAt (needsTypeConversionFix : Bool) (p : List Char) (o : Json) :
    Json :=
  match parsePath p with
  | none => o
  | some segs =>
    match getAtSegs segs o with
    | some (.arr ls) =>
      if ls.all isObjJson then
        (List.range ls.length).foldl
          (fun acc i =>
            let acc1 := fixStringTypeAt needsTypeConversionFix
              (indexedPath p i ++ (".default").toList) ("cpu") acc
            fixStringTypeAt needsTypeConversionFix
              (indexedPath p i ++ (".defaultRequest").toList) ("cpu") acc1) o
      else o
    | _ => o

/-- Line 432: `needsDefaultsFix := k.ServerVersion.LessThan(v1_21) || true`. -/
def needsDefaultsFix (k : K8sCluster) : Bool :=
  versionLessThan k.ServerVersion v1_21 || true

/-- Line 434: `needsTypeConversionFix := k.ServerVersion.LessThan(v1_1000)`. -/
def needsTypeConversionFix (k : K8sCluster) : Bool :=
  versionLessThan k.ServerVersion v1_1000

/-- `FixObjectForPatch` (lines 427-508).  The source clones the object and
mutates the clone; the model is pure, so the clone is implicit. -/
def FixObjectForPatch (k : K8sCluster) (o : Json) : Json :=
  let ndf := needsDefaultsFix k
  let ntf := needsTypeConversionFix k
  if !ndf && !ntf then o
  else
    let o1 := fixContainersAt ndf ntf ("spec.template.spec.containers").toList o
    let o2 := fixPortsAt ndf ("spec.ports").toList o1
    fixLimitsAt ntf ("spec.limits").toList o2

/-! ### Write / delete requests (k8s_cluster.go lines 363-422, 510-575) -/

/-- `PatchOptions` (lines 510-513). -/
structure PatchOptions where
  ForceDryRun : Bool
  ForceApply : Bool
deriving DecidableEq, Repr

/-- `UpdateOptions` (lines 548-550). -/
structure UpdateOptions where
  ForceDryRun : Bool
deriving DecidableEq, Repr

/-- `DeleteOptions` (lines 363-367). -/
structure DeleteOptions where
  ForceDryRun : Bool
  NoWait : Bool
  IgnoreNotFoundError : Bool
deriving DecidableEq, Repr

/-- The `v1.PatchOptions` record sent with the server-side-apply request. -/
structure PatchRequestOpts where
  fieldManager : String
  dryRun : List String
  force : Option Bool
deriving DecidableEq, Repr

/-- `PatchObject` request construction (lines 515-532): the dry-run directive
is added to the request options whenever the handle or the call forces
dry-run; the request is issued either way (no local short-circuit). -/
def patchRequestOpts (k : K8sCluster) (options : PatchOptions) :
    PatchRequestOpts :=
  let dryRun := k.DryRun || options.ForceDryRun
  { fieldManager := ("kluctl")
    dryRun := if dryRun then [("All")] else []
    force := if options.ForceApply then some options.ForceApply else none }

/-- The `v1.UpdateOptions` record sent with the update request. -/
structure UpdateRequestOpts where
  fieldManager : String
  dryRun : List String
deriving DecidableEq, Repr

/-- `UpdateObject` request construction (lines 552-561). -/
def updateRequestOpts (k : K8sCluster) (options : UpdateOptions) :
    UpdateRequestOpts :=
  let dryRun := k.DryRun || options.ForceDryRun
  { fieldManager := ("kluctl")
    dryRun := if dryRun then [("All")] else [] }

/-- The `v1.DeleteOptions` record sent with the delete request. -/
structure DeleteRequestOpts where
  propagationPolicy : String
  dryRun : List String
deriving DecidableEq, Repr

/-- `DeleteSingleObject` request construction (lines 369-378): foreground
cascade, plus the dry-run directive when in effect. -/
def deleteRequestOpts (k : K8sCluster) (options : DeleteOptions) :
    DeleteRequestOpts :=
  { propagationPolicy := ("Foreground")
    dryRun := if k.DryRun || options.ForceDryRun then [("All")] else [] }

/-- The poll interval of `waitForDeletedObject`:
`time.After(500 * time.Millisecond)` (line 415). -/
def deleteWaitIntervalMs : Nat := 500

/-- Result of `waitForDeletedObject`: `none` is the nil error (deletion
confirmed). -/
def WaitResult : Type := Option K8sError

/-- Environment of one `DeleteSingleObject` call: the delete call's error,
the error of the `n`-th `GetSingleObject` poll (`none` while the object still
exists), and whether `ctx.Done()` is ready at the `n`-th select. -/
structure DeleteEnv where
  deleteErr : Option K8sError
  fetch : Nat → Option K8sError
  ctxDone : Nat → Bool

/-- `waitForDeletedObject` (lines 403-422): re-fetch the ref; a not-found
fetch confirms deletion, any other fetch error is returned, and otherwise the
loop sleeps one poll interval unless the caller's cancellation fires first, in
which case a "failed waiting for deletion" error is returned.  The unbounded
`for` loop is given explicit fuel; `none` means the loop was still running
after `fuel` polls. -/
def waitForDeletedObject (ref : ObjectRef) (env : DeleteEnv) :
    Nat → Nat → Option WaitResult
  | 0, _ => none
  | fuel + 1, n =>
    match env.fetch n with
    | some e => if isNotFound e then some none else some (some e)
    | none =>
      if env.ctxDone n then
        some (some (K8sError.failedWaitingForDeletion ref))
      else waitForDeletedObject ref env fuel (n + 1)

/-- `DeleteSingleObject` (lines 369-401), error component.  The delete
request is issued with `deleteRequestOpts`; a not-found error is excused when
`IgnoreNotFoundError` is set; waiting happens only when neither dry-run nor
`NoWait` is in effect. -/
def DeleteSingleObject (k : K8sCluster) (ref : ObjectRef)
    (options : DeleteOptions) (env : DeleteEnv) (fuel : Nat) :
    Option WaitResult :=
  let dryRun := k.DryRun || options.ForceDryRun
  let delErr : Option K8sError :=
    match env.deleteErr with
    | some e =>
      if options.IgnoreNotFoundError && isNotFound e then none else some e
    | none => none
  match delErr with
  | some e => some (some e)
  | none =>
    if !dryRun && !options.NoWait then waitForDeletedObject ref env fuel 0
    else some none

/-! ### The client pool (k8s_cluster.go lines 71, 113-152, 164-174)

The pool is a channel of capacity `parallelClients` used as a semaphore:
checkout is a receive, checkin a deferred send, and a caller whose context is
done fails instead of blocking forever.  Its concurrent behaviour is embedded
as a labelled transition system over the number of free entries, the number of
checked-out entries and the FIFO queue of blocked callers (the Go runtime
serves blocked channel receivers in FIFO order). -/

/-- `const parallelClients = 16` (line 71). -/
def parallelClients : Nat := 16

/-- Pool state: entries sitting in the channel, entries checked out, and the
identities of callers blocked on checkout. -/
structure PoolState where
  free : Nat
  held : Nat
  queue : List Nat
deriving DecidableEq, Repr

/-- The freshly initialised pool (`initClientPool` stocks exactly
`parallelClients` entries). -/
def poolInit : PoolState :=
  { free := parallelClients, held := 0, queue := [] }

/-- Events of the pool system: a caller arrives at the checkout `select`, the
head blocked caller receives an entry, a caller returns its entry (the
deferred send), or a blocked caller's context fires and it leaves the queue. -/
inductive PoolLabel where
  | arrive (c : Nat)
  | serve
  | release
  | cancel (c : Nat)
deriving DecidableEq, Repr

/-- One transition; `none` when the event is not enabled (a `serve` blocks
while no entry is free). -/
def applyLabel (s : PoolState) : PoolLabel → Option PoolState
  | .arrive c => some { s with queue := s.queue ++ [c] }
  | .serve =>
    match s.free, s.queue with
    | f + 1, _ :: q =>
      some { free := f, held := s.held + 1, queue := q }
    | _, _ => none
  | .release =>
    match s.held with
    | h + 1 => some { free := s.free + 1, held := h, queue := s.queue }
    | 0 => none
  | .cancel c =>
    if c ∈ s.queue then some { s with queue := s.queue.erase c } else none

/-- Run a sequence of pool events. -/
def runLabels : PoolState → List PoolLabel → Option PoolState
  | s, [] => some s
  | s, l :: ls =>
    match applyLabel s l with
    | some s' => runLabels s' ls
    | none => none

/-- Number of `serve` events in a trace. -/
def serveCount : List PoolLabel → Nat
  | [] => 0
  | .serve :: ls => serveCount ls + 1
  | _ :: ls => serveCount ls

/-- Result of the callback a caller hands to `withClientFromPool`. -/
structure ClientCallOutcome where
  warnings : List ApiWarning
  err : Option K8sError

/-- `withClientFromPool` (lines 164-174): if the caller's context is already
done the call fails with the "failed waiting for free client" error and never
touches the pool; otherwise the caller checks an entry out and — via `defer` —
returns it when the callback ends, whatever the callback's error, and the
warnings collected during this checkout are copied out. -/
def withClientFromPool (ctxDone : Bool) (cb : ClientCallOutcome) :
    List PoolLabel × (List ApiWarning × Option K8sError) :=
  if ctxDone then ([], ([], some K8sError.failedWaitingForFreeClient))
  else ([PoolLabel.serve, PoolLabel.release], (cb.warnings, cb.err))

/-! ### Outcome accessors and fan-out side conditions -/

/-- The object of a successful lookup, `none` for a failed one. -/
def outcomeObj : GetOutcome → Option Json
  | .ok o _ => some o
  | .err _ _ => none

/-- The warnings an outcome carries. -/
def outcomeWarnings : GetOutcome → List ApiWarning
  | .ok _ w => w
  | .err _ w => w

/-- A per-ref outcome that does not abort `GetObjectsByRefs`: success, or an
error excused by the not-found / no-matching-kind check. -/
def softGet (env : ObjectRef → GetOutcome) (x : ObjectRef) : Prop :=
  (∃ o w, env x = .ok o w) ∨
  (∃ e w, env x = .err e w ∧ (isNotFound e || isNoMatchError e) = true)

/-- The objects a per-kind unit contributes to the merged result. -/
def listContribution (env : GroupVersionKind → ListOutcome)
    (g : GroupVersionKind) : List Json :=
  match env g with
  | .ok l _ => l
  | .err _ _ => []

/-- The warnings a per-kind outcome carries. -/
def listOutcomeWarnings : ListOutcome → List ApiWarning
  | .ok _ w => w
  | .err _ w => w

/-- A per-kind outcome that does not abort `ListAllObjects`: success, or an
error excused by the (not-found-only) check. -/
def listSoft (env : GroupVersionKind → ListOutcome) (g : GroupVersionKind) :
    Prop :=
  (∃ l w, env g = .ok l w) ∨ (∃ e w, env g = .err e w ∧ isNotFound e = true)

/-! ### Concrete fixtures used by witnesses and counterexamples -/

/-- A sample kind. -/
def gvkA : GroupVersionKind :=
  { group := ("apps"), version := ("v1"), kind := ("Deployment") }

/-- A second sample kind. -/
def gvkB : GroupVersionKind :=
  { group := ("batch"), version := ("v1"), kind := ("CronJob") }

/-- Sample refs. -/
def refA : ObjectRef := { gvk := gvkA, ns := ("default"), name := ("a") }

/-- Second sample ref. -/
def refB : ObjectRef := { gvk := gvkA, ns := ("default"), name := ("b") }

/-- Third sample ref. -/
def refC : ObjectRef := { gvk := gvkB, ns := ("kube-system"), name := ("c") }

/-- A sample API warning. -/
def w1 : ApiWarning :=
  { code := 299, agent := ("k8s"), text := ("deprecated") }

/-- Environment where every lookup fails not-found while emitting a warning. -/
def envC1cex : ObjectRef → GetOutcome := fun _ => .err .notFound [w1]

/-- Environment where `refB` is not found (no warnings) and the rest succeed. -/
def envC1 : ObjectRef → GetOutcome := fun r =>
  if r = refB then .err .notFound [] else .ok (.str r.name) []

/-- Environment where `refB` fails with a transport error. -/
def envC2 : ObjectRef → GetOutcome := fun r =>
  if r = refB then .err (.transport ("connection refused")) []
  else .ok (.str r.name) [w1]

/-- Kind environment where `gvkB` is not found and the rest succeed. -/
def envL1 : GroupVersionKind → ListOutcome := fun g =>
  if g = gvkB then .err .notFound [] else .ok [.str g.kind] []

/-- Kind environment failing with the no-matching-kind error. -/
def envL0 : GroupVersionKind → ListOutcome := fun _ => .err .noMatch []

/-- Kind environment: `gvkA` succeeds with a warning, `gvkB` hard-errors. -/
def envL2 : GroupVersionKind → ListOutcome := fun g =>
  if g = gvkB then .err (.transport ("connection refused")) []
  else .ok [.str g.kind] [w1]

/-- A cluster handle on a 1.20 server (needs both fixes), not dry-run. -/
def k120 : K8sCluster :=
  { ctx := 0, DryRun := false, restConfig := 1, clientPool := 2,
    ServerVersion := [1, 20], Resources := 3 }

/-- A cluster handle on a 1.22 server (defaults inconsistency fixed
upstream), not dry-run. -/
def k122 : K8sCluster :=
  { ctx := 0, DryRun := false, restConfig := 1, clientPool := 2,
    ServerVersion := [1, 22], Resources := 3 }

/-- A dry-run handle. -/
def kDry : K8sCluster :=
  { ctx := 0, DryRun := true, restConfig := 1, clientPool := 2,
    ServerVersion := [1, 25, 3], Resources := 3 }

/-- A cluster handle whose server version disables the type-conversion fix
(`1.1000` is not less than `v1_1000`). -/
def kBig : K8sCluster :=
  { ctx := 0, DryRun := false, restConfig := 1, clientPool := 2,
    ServerVersion := [1, 1000], Resources := 3 }

/-- A port entry with no protocol. -/
def portNoProto : Json := .obj [(("containerPort"), .num 80)]

/-- A port entry that already specifies a protocol. -/
def portUDP : Json :=
  .obj [(("containerPort"), .num 443), (("protocol"), .str ("UDP"))]

/-- Field list of a container with both kinds of port entry and a numeric
cpu limit. -/
def container1Fields : List (String × Json) :=
  [(("name"), .str ("c1")),
   (("ports"), .arr [portNoProto, portUDP]),
   (("resources"), .obj [(("limits"), .obj [(("cpu"), .num 2)])])]

/-- The container as a tree node. -/
def container1 : Json := .obj container1Fields

/-- A workload object exercising every fixup path: pod-template container
ports and resources, service ports, and limit-range items. -/
def sampleObj : Json :=
  .obj [(("spec"), .obj [
    (("template"), .obj [(("spec"), .obj [(("containers"), .arr [container1])])]),
    (("ports"), .arr [portNoProto]),
    (("limits"), .arr [.obj [(("default"), .obj [(("cpu"), .num 1)])]])])]

/-- An object whose only fixable content is one service port without
protocol. -/
def oSpecPorts : Json :=
  .obj [(("spec"), .obj [(("ports"), .arr [.obj []])])]

/-- The parsed path of the first service port's protocol. -/
def segsSpecPortsProto : List PathSeg :=
  [.field ("spec"), .field ("ports"), .idx 0, .field ("protocol")]

/-- The parsed path of the first container's cpu limit. -/
def segsContainerCpu : List PathSeg :=
  [.field ("spec"), .field ("template"), .field ("spec"), .field ("containers"),
   .idx 0, .field ("resources"), .field ("limits"), .field ("cpu")]

/-- The parsed path of the first limit-range item's default cpu. -/
def segsLimitsCpu : List PathSeg :=
  [.field ("spec"), .field ("limits"), .idx 0, .field ("default"), .field ("cpu")]

/-- The parsed path of the pod-template container list. -/
def segsContainers : List PathSeg :=
  [.field ("spec"), .field ("template"), .field ("spec"), .field ("containers")]

/-- The parsed path of the service port list. -/
def segsSpecPorts : List PathSeg := [.field ("spec"), .field ("ports")]

/-- Delete environment: the object disappears after exactly two polls. -/
def envDelOk : DeleteEnv :=
  { deleteErr := none
    fetch := fun n => if n < 2 then none else some .notFound
    ctxDone := fun _ => false }

/-- Delete environment: the object never disappears and the context fires at
the second select. -/
def envDelCancel : DeleteEnv :=
  { deleteErr := none
    fetch := fun _ => none
    ctxDone := fun n => 1 ≤ n }

/-- Delete options with waiting enabled. -/
def optsWait : DeleteOptions :=
  { ForceDryRun := false, NoWait := false, IgnoreNotFoundError := false }

/-- Default patch options. -/
def patchOptsPlain : PatchOptions := { ForceDryRun := false, ForceApply := false }

/-- Default update options. -/
def updateOptsPlain : UpdateOptions := { ForceDryRun := false }

/-- A sample pool trace: a caller arrives, is served, and returns its entry. -/
def trC9 : List PoolLabel := [.arrive 7, .serve, .release]

/-! ### Path abbreviations for the fixup proofs -/

/-- The container-list path string passed to `fixContainers` (line 503). -/
def pathContainers : List Char := ("spec.template.spec.containers").toList

/-- The service-port path string passed to `fixPorts` (line 504). -/
def pathSpecPorts : List Char := ("spec.ports").toList

/-- The limit-range path string passed to `fixLimits` (line 505). -/
def pathLimits : List Char := ("spec.limits").toList

/-- The parsed path of container `j`'s port list. -/
def portsSegs (j : Nat) : List PathSeg :=
  segsContainers ++ [.idx j, .field ("ports")]

/-- The parsed path of limit-range item `i`'s map under `key`. -/
def limitsItemSegs (i : Nat) (key : String) : List PathSeg :=
  [.field ("spec"), .field ("limits"), .idx i, .field key]

/-- Two parsed paths that disagree at some position after a shared prefix:
a modification below the one cannot be observed below the other. -/
def Diverges (segs target : List PathSeg) : Prop :=
  ∃ (common : List PathSeg) (x y : PathSeg) (s' t' : List PathSeg),
    segs = common ++ x :: s' ∧ target = common ++ y :: t' ∧ x ≠ y

/-! ## Lemmas about warnings maps -/

theorem wmInsert_hasKey_self {κ : Type} [DecidableEq κ]
    (wm : WarnMap κ) (k : κ) (w : List ApiWarning) :
    wmHasKey (wmInsert wm k w) k = true := by
  induction wm with
  | nil => simp [wmInsert, wmHasKey]
  | cons kv rest ih =>
    by_cases h : kv.1 = k
    · simp [wmInsert, h, wmHasKey]
    · simp [wmInsert, h, wmHasKey, ih]

theorem wmInsert_hasKey_ne {κ : Type} [DecidableEq κ]
    (wm : WarnMap κ) (k : κ) (w : List ApiWarning) (r : κ) (h : k ≠ r) :
    wmHasKey (wmInsert wm k w) r = wmHasKey wm r := by
  induction wm with
  | nil => simp [wmInsert, wmHasKey, h]
  | cons kv rest ih =>
    by_cases h2 : kv.1 = k
    · simp [wmInsert, h2, wmHasKey, h]
    · simp [wmInsert, h2, wmHasKey, ih]

theorem wmInsert_hasKey_of_hasKey {κ : Type} [DecidableEq κ]
    (wm : WarnMap κ) (k : κ) (w : List ApiWarning) (r : κ)
    (h : wmHasKey wm r = true) :
    wmHasKey (wmInsert wm k w) r = true := by
  by_cases hk : k = r
  · subst hk; exact wmInsert_hasKey_self wm k w
  · rw [wmInsert_hasKey_ne wm k w r hk]; exact h

/-! ## Lemmas about the fan-out folds -/

theorem getGo_append_soft (env : ObjectRef → GetOutcome) :
    ∀ (a rest : List ObjectRef) (ret : List Json) (wm : WarnMap ObjectRef),
    (∀ x ∈ a, softGet env x) →
    ∃ wm', getObjectsByRefsGo env (a ++ rest) ret wm
        = getObjectsByRefsGo env rest
            (ret ++ a.filterMap (fun x => outcomeObj (env x))) wm'
      ∧ (∀ r, r ∉ a → wmHasKey wm' r = wmHasKey wm r)
      ∧ (∀ r, wmHasKey wm r = true → wmHasKey wm' r = true)
      ∧ (∀ x ∈ a, outcomeWarnings (env x) ≠ [] → wmHasKey wm' x = true) := by
  intro a
  induction a with
  | nil =>
    intro rest ret wm _
    exact ⟨wm, by simp, fun r _ => rfl, fun r h => h, by simp⟩
  | cons x a' ih =>
    intro rest ret wm hsoft
    have hx := hsoft x (by simp)
    rcases hx with ⟨o, w, hx⟩ | ⟨e, w, hx, hexc⟩
    · -- successful lookup
      have step : getObjectsByRefsGo env ((x :: a') ++ rest) ret wm
          = getObjectsByRefsGo env (a' ++ rest) (ret ++ [o])
              (if w.isEmpty then wm else wmInsert wm x w) := by
        simp [getObjectsByRefsGo, hx]
      obtain ⟨wm', h1, h2, h3, h4⟩ := ih rest (ret ++ [o])
        (if w.isEmpty then wm else wmInsert wm x w)
        (fun y hy => hsoft y (by simp [hy]))
      refine ⟨wm', ?_, ?_, ?_, ?_⟩
      · rw [step, h1]
        simp [hx, outcomeObj]
      · intro r hr
        have hrx : r ≠ x := fun hc => hr (by simp [hc])
        have hra : r ∉ a' := fun hc => hr (by simp [hc])
        rw [h2 r hra]
        by_cases hw : w.isEmpty
        · simp [hw]
        · simp [hw, wmInsert_hasKey_ne wm x w r (fun hc => hrx hc.symm)]
      · intro r hr
        apply h3
        by_cases hw : w.isEmpty
        · simpa [hw] using hr
        · simp [hw, wmInsert_hasKey_of_hasKey _ _ _ _ hr]
      · intro y hy hw
        rcases (by simpa using hy : y = x ∨ y ∈ a') with hyx | hya
        · subst hyx
          apply h3
          have hwe : w.isEmpty = false := by
            rw [hx, outcomeWarnings] at hw
            cases w with
            | nil => exact absurd rfl hw
            | cons _ _ => rfl
          simp [hwe, wmInsert_hasKey_self]
        · exact h4 y hya hw
    · -- excused error
      have step : getObjectsByRefsGo env ((x :: a') ++ rest) ret wm
          = getObjectsByRefsGo env (a' ++ rest) ret
              (if w.isEmpty then wm else wmInsert wm x w) := by
        simp [getObjectsByRefsGo, hx, hexc]
      obtain ⟨wm', h1, h2, h3, h4⟩ := ih rest ret
        (if w.isEmpty then wm else wmInsert wm x w)
        (fun y hy => hsoft y (by simp [hy]))
      refine ⟨wm', ?_, ?_, ?_, ?_⟩
      · rw [step, h1]
        simp [hx, outcomeObj]
      · intro r hr
        have hrx : r ≠ x := fun hc => hr (by simp [hc])
        have hra : r ∉ a' := fun hc => hr (by simp [hc])
        rw [h2 r hra]
        by_cases hw : w.isEmpty
        · simp [hw]
        · simp [hw, wmInsert_hasKey_ne wm x w r (fun hc => hrx hc.symm)]
      · intro r hr
        apply h3
        by_cases hw : w.isEmpty
        · simpa [hw] using hr
        · simp [hw, wmInsert_hasKey_of_hasKey _ _ _ _ hr]
      · intro y hy hw
        rcases (by simpa using hy : y = x ∨ y ∈ a') with hyx | hya
        · subst hyx
          apply h3
          have hwe : w.isEmpty = false := by
            rw [hx, outcomeWarnings] at hw
            cases w with
            | nil => exact absurd rfl hw
            | cons _ _ => rfl
          simp [hwe, wmInsert_hasKey_self]
        · exact h4 y hya hw

theorem listGo_append_soft (env : GroupVersionKind → ListOutcome) :
    ∀ (a rest : List GroupVersionKind) (ret : List Json)
      (wm : WarnMap GroupVersionKind),
    (∀ x ∈ a, listSoft env x) →
    ∃ wm', listAllObjectsGo env (a ++ rest) ret wm
        = listAllObjectsGo env rest
            (ret ++ (a.map (listContribution env)).flatten) wm'
      ∧ (∀ r, r ∉ a → wmHasKey wm' r = wmHasKey wm r)
      ∧ (∀ r, wmHasKey wm r = true → wmHasKey wm' r = true)
      ∧ (∀ x ∈ a, listOutcomeWarnings (env x) ≠ [] → wmHasKey wm' x = true) := by
  intro a
  induction a with
  | nil =>
    intro rest ret wm _
    exact ⟨wm, by simp, fun r _ => rfl, fun r h => h, by simp⟩
  | cons x a' ih =>
    intro rest ret wm hsoft
    have hx := hsoft x (by simp)
    have key : ∃ l, listAllObjectsGo env ((x :: a') ++ rest) ret wm
        = listAllObjectsGo env (a' ++ rest) (ret ++ l)
            (if (listOutcomeWarnings (env x)).isEmpty then wm
             else wmInsert wm x (listOutcomeWarnings (env x)))
        ∧ listContribution env x = l := by
      rcases hx with ⟨l, w, hxo⟩ | ⟨e, w, hxo, hexc⟩
      · exact ⟨l, by simp [listAllObjectsGo, hxo, listOutcomeWarnings],
          by simp [listContribution, hxo]⟩
      · refine ⟨[], ?_, by simp [listContribution, hxo]⟩
        simp [listAllObjectsGo, hxo, hexc, listOutcomeWarnings]
    obtain ⟨l, step, hcon⟩ := key
    obtain ⟨wm', h1, h2, h3, h4⟩ := ih rest (ret ++ l)
      (if (listOutcomeWarnings (env x)).isEmpty then wm
       else wmInsert wm x (listOutcomeWarnings (env x)))
      (fun y hy => hsoft y (by simp [hy]))
    refine ⟨wm', ?_, ?_, ?_, ?_⟩
    · rw [step, h1, ← hcon]
      simp
    · intro r hr
      have hrx : r ≠ x := fun hc => hr (by simp [hc])
      have hra : r ∉ a' := fun hc => hr (by simp [hc])
      rw [h2 r hra]
      by_cases hw : (listOutcomeWarnings (env x)).isEmpty
      · simp [hw]
      · simp [hw, wmInsert_hasKey_ne wm x _ r (fun hc => hrx hc.symm)]
    · intro r hr
      apply h3
      by_cases hw : (listOutcomeWarnings (env x)).isEmpty
      · simpa [hw] using hr
      · simp [hw, wmInsert_hasKey_of_hasKey _ _ _ _ hr]
    · intro y hy hw
      rcases (by simpa using hy : y = x ∨ y ∈ a') with hyx | hya
      · subst hyx
        apply h3
        have hwe : (listOutcomeWarnings (env y)).isEmpty = false := by
          cases hlw : listOutcomeWarnings (env y) with
          | nil => exact absurd hlw hw
          | cons _ _ => simp [hlw]
        simp [hwe, wmInsert_hasKey_self]
      · exact h4 y hya hw

/-! ## Claim C1 -/

/-- C1 (counterexample): with a single ref whose lookup fails not-found while
emitting an API warning, `GetObjectsByRefs` returns a nil error but the
not-found ref *does* appear as a key of the per-ref warnings map, because the
source records warnings before inspecting the error.  This refutes the claim
that the not-found ref appears neither in the results nor as a warnings
key. -/
theorem C1_counterexample :
    envC1cex refA = GetOutcome.err K8sError.notFound [w1]
    ∧ (GetObjectsByRefs envC1cex [refA]).2.2 = none
    ∧ (GetObjectsByRefs envC1cex [refA]).1 = []
    ∧ wmHasKey (GetObjectsByRefs envC1cex [refA]).2.1 refA = true :=
  ⟨rfl, rfl, rfl, rfl⟩

/-- C1 (amended): for every list of refs in which exactly one ref fails with
a not-found error and all other lookups succeed, `GetObjectsByRefs` returns
the remaining refs' results with a nil error and no object for the not-found
ref; the not-found ref is moreover absent from the per-ref warnings map
provided its failing lookup emitted no API warnings (if it emitted warnings
they are recorded under its key). -/
theorem C1_getObjectsByRefs_notFound_skipped
    (env : ObjectRef → GetOutcome) (a b : List ObjectRef) (r : ObjectRef)
    (wr : List ApiWarning)
    (ha : ∀ x ∈ a, ∃ o w, env x = .ok o w)
    (hb : ∀ x ∈ b, ∃ o w, env x = .ok o w)
    (hr : env r = .err .notFound wr)
    (hra : r ∉ a) (hrb : r ∉ b) :
    ∃ objs wm, GetObjectsByRefs env (a ++ r :: b) = (objs, wm, none)
      ∧ objs = (a ++ b).filterMap (fun x => outcomeObj (env x))
      ∧ (wr = [] → wmHasKey wm r = false) := by
  obtain ⟨wm1, h1, h2, _, _⟩ := getGo_append_soft env a (r :: b) [] wmEmpty
    (fun x hx => Or.inl (ha x hx))
  have step : getObjectsByRefsGo env (r :: b)
      (([] : List Json) ++ a.filterMap (fun x => outcomeObj (env x))) wm1
      = getObjectsByRefsGo env b
          (([] : List Json) ++ a.filterMap (fun x => outcomeObj (env x)))
          (if wr.isEmpty then wm1 else wmInsert wm1 r wr) := by
    simp [getObjectsByRefsGo, hr, isNotFound]
  obtain ⟨wm2, h1', h2', _, _⟩ := getGo_append_soft env b []
    (([] : List Json) ++ a.filterMap (fun x => outcomeObj (env x)))
    (if wr.isEmpty then wm1 else wmInsert wm1 r wr)
    (fun x hx => Or.inl (hb x hx))
  refine ⟨(a ++ b).filterMap (fun x => outcomeObj (env x)), wm2, ?_, rfl, ?_⟩
  · show getObjectsByRefsGo env (a ++ r :: b) [] wmEmpty = _
    rw [List.append_nil] at h1'
    rw [h1, step, h1']
    simp [getObjectsByRefsGo, List.filterMap_append]
  · intro hwr
    subst hwr
    have e1 : wmHasKey wm2 r = wmHasKey wm1 r := by
      have := h2' r hrb
      simpa using this
    rw [e1, h2 r hra]
    rfl

/-- C1 (witness): the amended statement at a concrete environment where
`refB` is not found without warnings among two successful refs. -/
theorem C1_witness :
    ∃ objs wm,
      GetObjectsByRefs envC1 [refA, refB, refC] = (objs, wm, none)
      ∧ objs = [Json.str ("a"), Json.str ("c")]
      ∧ wmHasKey wm refB = false := by
  obtain ⟨objs, wm, h1, h2, h3⟩ :=
    C1_getObjectsByRefs_notFound_skipped envC1 [refA] [refC] refB []
      (by intro x hx; simp at hx; subst hx; exact ⟨_, _, rfl⟩)
      (by intro x hx; simp at hx; subst hx; exact ⟨_, _, rfl⟩)
      rfl (by decide) (by decide)
  exact ⟨objs, wm, h1, by rw [h2]; rfl, h3 rfl⟩

/-! ## Claim C2 -/

/-- C2: if some ref's underlying call fails with an error that is neither
not-found nor no-matching-kind, and every ref submitted before it either
succeeded or was excused, `GetObjectsByRefs` returns that first hard per-unit
error rather than silently dropping it. -/
theorem C2_getObjectsByRefs_hard_error
    (env : ObjectRef → GetOutcome) (a b : List ObjectRef) (r : ObjectRef)
    (e : K8sError) (w : List ApiWarning)
    (ha : ∀ x ∈ a, softGet env x)
    (hr : env r = .err e w)
    (hnf : isNotFound e = false) (hnm : isNoMatchError e = false) :
    (GetObjectsByRefs env (a ++ r :: b)).2.2 = some e := by
  obtain ⟨wm1, h1, _, _, _⟩ := getGo_append_soft env a (r :: b) [] wmEmpty ha
  show (getObjectsByRefsGo env (a ++ r :: b) [] wmEmpty).2.2 = some e
  rw [h1]
  simp [getObjectsByRefsGo, hr, hnf, hnm]

/-- C2 (witness): the transport error of `refB` is returned. -/
theorem C2_witness :
    (GetObjectsByRefs envC2 [refA, refB, refC]).2.2
      = some (K8sError.transport ("connection refused")) := by
  have h := C2_getObjectsByRefs_hard_error envC2 [refA] [refC] refB
    (K8sError.transport ("connection refused")) []
    (by intro x hx; simp at hx; subst hx; exact Or.inl ⟨_, _, rfl⟩)
    rfl rfl rfl
  exact h

/-! ## Claim C3 -/

/-- C3 (counterexample): a per-kind unit failing with the no-matching-kind
error makes `ListAllObjects` return that error — the source's fan-out loop
excuses only `errors.IsNotFound`, not `meta.IsNoMatchError` (unlike
`GetObjectsByRefs`), so the claim that a no-matching-kind unit is silently
omitted with a nil overall error is false. -/
theorem C3_counterexample :
    envL0 gvkA = ListOutcome.err K8sError.noMatch []
    ∧ isNoMatchError K8sError.noMatch = true
    ∧ (ListAllObjects envL0 [gvkA]).2.2 = some K8sError.noMatch
    ∧ some K8sError.noMatch ≠ (none : Option K8sError) :=
  ⟨rfl, rfl, rfl, by simp⟩

/-- C3 (amended): in `ListAllObjects`, a per-kind unit whose list call fails
with a not-found error is not an error: its kind contributes nothing to the
result set and — absent any other hard error — the overall call returns a nil
error; a unit failing with the no-matching-kind error, however, aborts the
call with that error. -/
theorem C3_listAllObjects_notFound_skipped :
    (∀ (env : GroupVersionKind → ListOutcome) (gvks : List GroupVersionKind),
      (∀ g ∈ gvks, listSoft env g) →
      ∃ wm, ListAllObjects env gvks
          = ((gvks.map (listContribution env)).flatten, wm, none)
        ∧ ∀ g ∈ gvks, (∃ w, env g = .err .notFound w) →
            listContribution env g = [])
    ∧ (∀ (env : GroupVersionKind → ListOutcome)
        (a b : List GroupVersionKind) (g : GroupVersionKind)
        (e : K8sError) (w : List ApiWarning),
        (∀ x ∈ a, listSoft env x) → env g = .err e w → isNotFound e = false →
        (ListAllObjects env (a ++ g :: b)).2.2 = some e) := by
  constructor
  · intro env gvks hsoft
    obtain ⟨wm, h1, _, _, _⟩ := listGo_append_soft env gvks [] [] wmEmpty hsoft
    rw [List.append_nil] at h1
    refine ⟨wm, ?_, ?_⟩
    · show listAllObjectsGo env gvks [] wmEmpty = _
      rw [h1]
      simp [listAllObjectsGo]
    · intro g _ ⟨w, hw⟩
      simp [listContribution, hw]
  · intro env a b g e w hsoft hg hnf
    obtain ⟨wm1, h1, _, _, _⟩ := listGo_append_soft env a (g :: b) [] wmEmpty hsoft
    show (listAllObjectsGo env (a ++ g :: b) [] wmEmpty).2.2 = some e
    rw [h1]
    simp [listAllObjectsGo, hg, hnf]

/-- C3 (witness): the amended statement at a concrete environment where
`gvkB` is not found next to a successful `gvkA`, and at one where a kind
fails with the no-matching-kind error. -/
theorem C3_witness :
    (∃ wm, ListAllObjects envL1 [gvkA, gvkB]
        = ([Json.str ("Deployment")], wm, none))
    ∧ (ListAllObjects envL0 [gvkB, gvkA]).2.2 = some K8sError.noMatch := by
  constructor
  · obtain ⟨wm, h1, _⟩ := C3_listAllObjects_notFound_skipped.1 envL1 [gvkA, gvkB]
      (by
        intro g hg
        rcases (by simpa using hg : g = gvkA ∨ g = gvkB) with h | h
        · subst h; exact Or.inl ⟨_, _, rfl⟩
        · subst h; exact Or.inr ⟨_, _, rfl, rfl⟩)
    exact ⟨wm, h1⟩
  · exact C3_listAllObjects_notFound_skipped.2 envL0 [] [gvkA] gvkB
      K8sError.noMatch [] (by simp) rfl rfl

/-! ## Claim C10 -/

/-- C10: when a fan-out unit fails with a hard error, both `GetObjectsByRefs`
and `ListAllObjects` return a nil object list together with the error, and
the per-ref (per-kind) warnings recorded for units merged before the failure
are still present in the returned warnings map. -/
theorem C10_fanout_error_keeps_warnings :
    (∀ (env : ObjectRef → GetOutcome) (a b : List ObjectRef) (r : ObjectRef)
      (e : K8sError) (w : List ApiWarning),
      (∀ x ∈ a, softGet env x) → env r = .err e w →
      isNotFound e = false → isNoMatchError e = false →
      ∃ wm, GetObjectsByRefs env (a ++ r :: b) = ([], wm, some e)
        ∧ ∀ x ∈ a, outcomeWarnings (env x) ≠ [] → wmHasKey wm x = true)
    ∧ (∀ (env : GroupVersionKind → ListOutcome)
        (a b : List GroupVersionKind) (g : GroupVersionKind)
        (e : K8sError) (w : List ApiWarning),
        (∀ x ∈ a, listSoft env x) → env g = .err e w → isNotFound e = false →
        ∃ wm, ListAllObjects env (a ++ g :: b) = ([], wm, some e)
          ∧ ∀ x ∈ a, listOutcomeWarnings (env x) ≠ [] →
              wmHasKey wm x = true) := by
  constructor
  · intro env a b r e w hsoft hr hnf hnm
    obtain ⟨wm1, h1, _, h3, h4⟩ := getGo_append_soft env a (r :: b) [] wmEmpty hsoft
    refine ⟨if w.isEmpty then wm1 else wmInsert wm1 r w, ?_, ?_⟩
    · show getObjectsByRefsGo env (a ++ r :: b) [] wmEmpty = _
      rw [h1]
      simp [getObjectsByRefsGo, hr, hnf, hnm]
    · intro x hx hw
      have := h4 x hx hw
      by_cases hwe : w.isEmpty
      · simpa [hwe] using this
      · simp [hwe, wmInsert_hasKey_of_hasKey _ _ _ _ this]
  · intro env a b g e w hsoft hg hnf
    obtain ⟨wm1, h1, _, h3, h4⟩ := listGo_append_soft env a (g :: b) [] wmEmpty hsoft
    refine ⟨wm1, ?_, ?_⟩
    · show listAllObjectsGo env (a ++ g :: b) [] wmEmpty = _
      rw [h1]
      simp [listAllObjectsGo, hg, hnf]
    · exact h4

/-- C10 (witness): both parts at concrete environments in which the unit
before the failing one recorded a warning. -/
theorem C10_witness :
    (∃ wm, GetObjectsByRefs envC2 [refA, refB]
        = ([], wm, some (K8sError.transport ("connection refused")))
      ∧ wmHasKey wm refA = true)
    ∧ (∃ wm, ListAllObjects envL2 [gvkA, gvkB]
        = ([], wm, some (K8sError.transport ("connection refused")))
      ∧ wmHasKey wm gvkA = true) := by
  constructor
  · obtain ⟨wm, h1, h2⟩ := C10_fanout_error_keeps_warnings.1 envC2 [refA] []
      refB (K8sError.transport ("connection refused")) []
      (by intro x hx; simp at hx; subst hx; exact Or.inl ⟨_, _, rfl⟩)
      rfl rfl rfl
    exact ⟨wm, h1, h2 refA (by simp) (by simp [envC2, refA, refB, outcomeWarnings])⟩
  · obtain ⟨wm, h1, h2⟩ := C10_fanout_error_keeps_warnings.2 envL2 [gvkA] []
      gvkB (K8sError.transport ("connection refused")) []
      (by intro x hx; simp at hx; subst hx; exact Or.inl ⟨_, _, rfl⟩)
      rfl rfl
    exact ⟨wm, h1, h2 gvkA (by simp)
      (by simp [envL2, gvkA, gvkB, listOutcomeWarnings])⟩

/-! ## Claim C4 -/

theorem foldl_self {α β : Type} : ∀ (l : List β) (o : α),
    l.foldl (fun acc _ => acc) o = o := by
  intro l
  induction l with
  | nil => intro o; rfl
  | cons x xs ih => intro o; simp [List.foldl, ih o]

theorem fixLimitsAt_false (p : List Char) (o : Json) :
    fixLimitsAt false p o = o := by
  unfold fixLimitsAt
  split
  · rfl
  · split
    · split
      · exact foldl_self _ o
      · rfl
    · rfl

/-- C4 (counterexample): on a 1.22 server — whose version is not less than
1.21, i.e. the defaults inconsistency is fixed upstream — `FixObjectForPatch`
still applies the port-protocol defaults fixup (it adds `protocol = "TCP"`
to a port that lacked it), because `needsDefaultsFix` is computed with
`|| true`.  This refutes the claim that every fixup is version-gated so that
such a cluster receives an object unmodified by it. -/
theorem C4_counterexample :
    versionLessThan k122.ServerVersion v1_21 = false
    ∧ getAtSegs segsSpecPortsProto oSpecPorts = none
    ∧ getAtSegs segsSpecPortsProto (FixObjectForPatch k122 oSpecPorts)
        = some (Json.str ("TCP")) :=
  ⟨rfl, rfl, rfl⟩

/-- C4 (amended): the type-conversion fixup is gated by the server-version
comparison resolved at handle construction — on a server at or above the gate
version no type coercion is applied — while the defaults (port-protocol)
fixup's gate is `LessThan(v1_21) || true` and is therefore applied on every
server version. -/
theorem C4_fixup_gating (k : K8sCluster) (o : Json) (p : List Char)
    (key : String) :
    needsDefaultsFix k = true
    ∧ needsTypeConversionFix k = versionLessThan k.ServerVersion v1_1000
    ∧ fixStringTypeAt false p key o = o
    ∧ (needsTypeConversionFix k = false →
        FixObjectForPatch k o
          = fixPortsAt true (("spec.ports").toList)
              (fixContainersAt true false
                (("spec.template.spec.containers").toList) o)) := by
  refine ⟨by simp [needsDefaultsFix], rfl, rfl, ?_⟩
  intro hntf
  unfold FixObjectForPatch
  rw [hntf]
  simp [needsDefaultsFix, fixLimitsAt_false]

/-- C4 (witness): the amended statement at a server version at the
type-conversion gate. -/
theorem C4_witness :
    needsTypeConversionFix kBig = false
    ∧ FixObjectForPatch kBig sampleObj
        = fixPortsAt true (("spec.ports").toList)
            (fixContainersAt true false
              (("spec.template.spec.containers").toList) sampleObj) :=
  ⟨rfl, (C4_fixup_gating kBig sampleObj [] ("")).2.2.2 rfl⟩

/-! ## Claim C6 -/

/-- C6: the code is wrong — `fixContainer` builds the container resource
paths as `p + "resources.limits"` / `p + "resources.requests"` without the
dot separator the sibling `p + ".ports"` has, so the resulting path string
(`spec.template.spec.containers[0]resources.limits`) is malformed and
matches nothing, and a numeric container cpu limit is *not* coerced to a
string even on a server version requiring the type-conversion fix; the
limit-range fixup, whose paths are well-formed, does coerce.  Evaluation of
the model at the failing input. -/
theorem C6_container_cpu_not_coerced :
    needsTypeConversionFix k120 = true
    ∧ parsePath (indexedPath (("spec.template.spec.containers").toList) 0
        ++ ("resources.limits").toList) = none
    ∧ getAtSegs segsContainerCpu sampleObj = some (Json.num 2)
    ∧ getAtSegs segsContainerCpu (FixObjectForPatch k120 sampleObj)
        = some (Json.num 2)
    ∧ getAtSegs segsLimitsCpu (FixObjectForPatch k120 sampleObj)
        = some (Json.str ("1")) :=
  ⟨rfl, rfl, rfl, rfl, rfl⟩

/-! ## Claim C7 -/

/-- C7: a handle with dry-run set (or a per-call force-dry-run) makes every
patch, update and delete request carry the `DryRun = ["All"]` directive
(requests are still constructed and issued, not short-circuited); the
read-write clone has dry-run off, shares the handle's client pool, resolver,
context and rest config, and its write requests carry no dry-run directive
absent a per-call override. -/
theorem C7_dryRun_propagation (k : K8sCluster) (popts : PatchOptions)
    (uopts : UpdateOptions) (dopts : DeleteOptions) :
    (k.DryRun = true →
      (patchRequestOpts k popts).dryRun = [("All")]
      ∧ (updateRequestOpts k uopts).dryRun = [("All")]
      ∧ (deleteRequestOpts k dopts).dryRun = [("All")])
    ∧ (popts.ForceDryRun = true →
        (patchRequestOpts k popts).dryRun = [("All")])
    ∧ (ReadWrite k).DryRun = false
    ∧ (ReadWrite k).clientPool = k.clientPool
    ∧ (ReadWrite k).Resources = k.Resources
    ∧ (ReadWrite k).ctx = k.ctx
    ∧ (ReadWrite k).restConfig = k.restConfig
    ∧ (popts.ForceDryRun = false →
        (patchRequestOpts (ReadWrite k) popts).dryRun = [])
    ∧ (uopts.ForceDryRun = false →
        (updateRequestOpts (ReadWrite k) uopts).dryRun = [])
    ∧ (dopts.ForceDryRun = false →
        (deleteRequestOpts (ReadWrite k) dopts).dryRun = []) := by
  refine ⟨?_, ?_, rfl, rfl, rfl, rfl, rfl, ?_, ?_, ?_⟩
  · intro h
    exact ⟨by simp [patchRequestOpts, h], by simp [updateRequestOpts, h],
      by simp [deleteRequestOpts, h]⟩
  · intro h
    simp [patchRequestOpts, h]
  · intro h
    simp [patchRequestOpts, ReadWrite, h]
  · intro h
    simp [updateRequestOpts, ReadWrite, h]
  · intro h
    simp [deleteRequestOpts, ReadWrite, h]

/-- C7 (witness): the dry-run handle's requests carry the directive, the
read-write clone's requests do not, and the clone shares the pool. -/
theorem C7_witness :
    (patchRequestOpts kDry patchOptsPlain).dryRun = [("All")]
    ∧ (updateRequestOpts kDry updateOptsPlain).dryRun = [("All")]
    ∧ (deleteRequestOpts kDry optsWait).dryRun = [("All")]
    ∧ (ReadWrite kDry).DryRun = false
    ∧ (ReadWrite kDry).clientPool = kDry.clientPool
    ∧ (patchRequestOpts (ReadWrite kDry) patchOptsPlain).dryRun = [] := by
  obtain ⟨h1, _, h3, h4, _, _, _, h8, _, _⟩ :=
    C7_dryRun_propagation kDry patchOptsPlain updateOptsPlain optsWait
  obtain ⟨hp, hu, hd⟩ := h1 rfl
  exact ⟨hp, hu, hd, h3, h4, h8 rfl⟩

/-! ## Claim C8 -/

theorem waitForDeletedObject_success_trace (ref : ObjectRef)
    (env : DeleteEnv) :
    ∀ (fuel start : Nat),
    waitForDeletedObject ref env fuel start = some none →
    ∃ n, start ≤ n ∧ n < start + fuel
      ∧ (∃ e, env.fetch n = some e ∧ isNotFound e = true)
      ∧ ∀ m, start ≤ m → m < n → env.fetch m = none ∧ env.ctxDone m = false := by
  intro fuel
  induction fuel with
  | zero => intro start h; exact absurd h (by simp [waitForDeletedObject])
  | succ fuel ih =>
    intro start h
    rw [waitForDeletedObject] at h
    cases hf : env.fetch start with
    | some e =>
      rw [hf] at h
      by_cases hnf : isNotFound e
      · exact ⟨start, le_refl _, by omega, ⟨e, hf, hnf⟩,
          fun m h1 h2 => absurd h1 (by omega)⟩
      · simp [hnf] at h
    | none =>
      rw [hf] at h
      by_cases hd : env.ctxDone start
      · simp [hd] at h
      · simp only [hd, if_false, Bool.false_eq_true] at h
        obtain ⟨n, hn1, hn2, hn3, hn4⟩ := ih (start + 1) h
        refine ⟨n, by omega, by omega, hn3, ?_⟩
        intro m h1 h2
        by_cases hm : m = start
        · subst hm
          exact ⟨hf, by simpa using hd⟩
        · exact hn4 m (by omega) h2

theorem waitForDeletedObject_cancelled (ref : ObjectRef) (env : DeleteEnv)
    (c : Nat)
    (halive : ∀ m, m ≤ c → env.fetch m = none)
    (hquiet : ∀ m, m < c → env.ctxDone m = false)
    (hdone : env.ctxDone c = true) :
    ∀ (fuel start : Nat), start ≤ c → c < start + fuel →
    waitForDeletedObject ref env fuel start
      = some (some (K8sError.failedWaitingForDeletion ref)) := by
  intro fuel
  induction fuel with
  | zero => intro start h1 h2; omega
  | succ fuel ih =>
    intro start h1 h2
    rw [waitForDeletedObject]
    rw [halive start h1]
    by_cases hs : start = c
    · subst hs
      simp [hdone]
    · have : env.ctxDone start = false := hquiet start (by omega)
      simp only [this, if_false, Bool.false_eq_true]
      exact ih (start + 1) (by omega) (by omega)

/-- C8: with waiting enabled (no dry-run, no no-wait) and a successful delete
request, `DeleteSingleObject` reports success only after a poll of the ref
observes a not-found error — every earlier poll saw the object alive and no
cancellation; if the caller's cancellation fires while the object is still
observed alive, the call returns the "failed waiting for deletion" error,
which is distinct from a not-found error; polls are spaced by the fixed
500 ms interval. -/
theorem C8_deleteSingleObject_wait (k : K8sCluster) (ref : ObjectRef)
    (opts : DeleteOptions) (env : DeleteEnv)
    (hdry : k.DryRun = false) (hforce : opts.ForceDryRun = false)
    (hwait : opts.NoWait = false) (hdel : env.deleteErr = none) :
    (∀ fuel, DeleteSingleObject k ref opts env fuel = some none →
      ∃ n, n < fuel
        ∧ (∃ e, env.fetch n = some e ∧ isNotFound e = true)
        ∧ ∀ m, m < n → env.fetch m = none ∧ env.ctxDone m = false)
    ∧ (∀ c fuel, (∀ m, m ≤ c → env.fetch m = none) →
        (∀ m, m < c → env.ctxDone m = false) → env.ctxDone c = true →
        c < fuel →
        DeleteSingleObject k ref opts env fuel
          = some (some (K8sError.failedWaitingForDeletion ref)))
    ∧ isNotFound (K8sError.failedWaitingForDeletion ref) = false
    ∧ deleteWaitIntervalMs = 500 := by
  have hred : ∀ fuel, DeleteSingleObject k ref opts env fuel
      = waitForDeletedObject ref env fuel 0 := by
    intro fuel
    simp [DeleteSingleObject, hdry, hforce, hwait, hdel]
  refine ⟨?_, ?_, rfl, rfl⟩
  · intro fuel h
    rw [hred] at h
    obtain ⟨n, _, hn2, hn3, hn4⟩ :=
      waitForDeletedObject_success_trace ref env fuel 0 h
    exact ⟨n, by omega, hn3, fun m hm => hn4 m (by omega) hm⟩
  · intro c fuel halive hquiet hdone hcf
    rw [hred]
    exact waitForDeletedObject_cancelled ref env c halive hquiet hdone fuel 0
      (by omega) (by omega)

/-- C8 (witness): an object that disappears after exactly two polls yields
success with the not-found observation at poll 2, and a cancellation firing
while the object is alive yields the distinct wait-failure error. -/
theorem C8_witness :
    (∃ n, n < 10
      ∧ (∃ e, envDelOk.fetch n = some e ∧ isNotFound e = true)
      ∧ ∀ m, m < n → envDelOk.fetch m = none ∧ envDelOk.ctxDone m = false)
    ∧ DeleteSingleObject k120 refA optsWait envDelCancel 10
        = some (some (K8sError.failedWaitingForDeletion refA)) := by
  constructor
  · exact (C8_deleteSingleObject_wait k120 refA optsWait envDelOk
      rfl rfl rfl rfl).1 10 rfl
  · exact (C8_deleteSingleObject_wait k120 refA optsWait envDelCancel
      rfl rfl rfl rfl).2.1 1 10
      (fun m _ => rfl)
      (fun m hm => by
        have : m = 0 := by omega
        subst this; rfl)
      rfl (by omega)

/-! ## Claim C9 -/

theorem applyLabel_sum (s : PoolState) (l : PoolLabel) (s' : PoolState)
    (h : applyLabel s l = some s') : s'.free + s'.held = s.free + s.held := by
  cases l with
  | arrive c =>
    simp only [applyLabel, Option.some.injEq] at h
    rw [← h]
  | serve =>
    simp only [applyLabel] at h
    cases hf : s.free with
    | zero => rw [hf] at h; simp at h
    | succ f =>
      rw [hf] at h
      cases hq : s.queue with
      | nil => rw [hq] at h; simp at h
      | cons x q =>
        rw [hq] at h
        simp only [Option.some.injEq] at h
        rw [← h]
        simp [hf]
        omega
  | release =>
    simp only [applyLabel] at h
    cases hh : s.held with
    | zero => rw [hh] at h; simp at h
    | succ hd =>
      rw [hh] at h
      simp only [Option.some.injEq] at h
      rw [← h]
      simp [hh]
      omega
  | cancel c =>
    simp only [applyLabel] at h
    by_cases hc : c ∈ s.queue
    · simp only [hc, if_true, Option.some.injEq] at h
      rw [← h]
    · simp [hc] at h

theorem runLabels_sum :
    ∀ (tr : List PoolLabel) (s s' : PoolState), runLabels s tr = some s' →
    s'.free + s'.held = s.free + s.held := by
  intro tr
  induction tr with
  | nil => intro s s' h; simp [runLabels] at h; rw [h]
  | cons l tr ih =>
    intro s s' h
    rw [runLabels] at h
    cases ha : applyLabel s l with
    | none => rw [ha] at h; simp at h
    | some s1 =>
      rw [ha] at h
      rw [ih s1 s' h]
      exact applyLabel_sum s l s1 ha

theorem notin_queue_preserved (c : Nat) :
    ∀ (tr : List PoolLabel) (s s' : PoolState), runLabels s tr = some s' →
    c ∉ s.queue → PoolLabel.arrive c ∉ tr → c ∉ s'.queue := by
  intro tr
  induction tr with
  | nil => intro s s' h hn _; simp [runLabels] at h; rw [← h]; exact hn
  | cons l tr ih =>
    intro s s' h hn htr
    rw [runLabels] at h
    cases ha : applyLabel s l with
    | none => rw [ha] at h; simp at h
    | some s1 =>
      rw [ha] at h
      have htr' : PoolLabel.arrive c ∉ tr := fun hc => htr (by simp [hc])
      refine ih s1 s' h ?_ htr'
      cases l with
      | arrive c' =>
        have hcc : c' ≠ c := by
          intro hc; exact htr (by simp [hc])
        simp only [applyLabel, Option.some.injEq] at ha
        rw [← ha]
        simp [hn, hcc, Ne.symm hcc]
      | serve =>
        simp only [applyLabel] at ha
        cases hf : s.free with
        | zero => rw [hf] at ha; simp at ha
        | succ f =>
          rw [hf] at ha
          cases hq : s.queue with
          | nil => rw [hq] at ha; simp at ha
          | cons x q =>
            rw [hq] at ha
            simp only [Option.some.injEq] at ha
            rw [← ha]
            intro hc
            exact hn (by rw [hq]; exact List.mem_cons_of_mem x hc)
      | release =>
        simp only [applyLabel] at ha
        cases hh : s.held with
        | zero => rw [hh] at ha; simp at ha
        | succ hd =>
          rw [hh] at ha
          simp only [Option.some.injEq] at ha
          rw [← ha]
          exact hn
      | cancel c' =>
        simp only [applyLabel] at ha
        by_cases hc : c' ∈ s.queue
        · simp only [hc, if_true, Option.some.injEq] at ha
          rw [← ha]
          intro hmem
          exact hn (List.mem_of_mem_erase hmem)
        · simp [hc] at ha

theorem getElem_erase_le (c c' : Nat) (hne : c ≠ c') :
    ∀ (l : List Nat) (i : Nat), l[i]? = some c →
    ∃ j, j ≤ i ∧ (l.erase c')[j]? = some c := by
  intro l
  induction l with
  | nil => intro i h; simp at h
  | cons x xs ih =>
    intro i h
    by_cases hx : x = c'
    · subst hx
      rw [List.erase_cons_head]
      cases i with
      | zero =>
        simp at h
        exact absurd h.symm hne
      | succ j =>
        simp only [List.getElem?_cons_succ] at h
        exact ⟨j, by omega, h⟩
    · rw [List.erase_cons_tail (by simp [hx])]
      cases i with
      | zero =>
        simp at h
        exact ⟨0, le_refl _, by simp [h]⟩
      | succ j =>
        simp only [List.getElem?_cons_succ] at h
        obtain ⟨j', hj1, hj2⟩ := ih j h
        exact ⟨j' + 1, by omega, by simpa using hj2⟩

theorem fifo_served (c : Nat) :
    ∀ (tr : List PoolLabel) (s s' : PoolState) (i : Nat),
    runLabels s tr = some s' →
    s.queue[i]? = some c → s.queue.count c = 1 →
    PoolLabel.cancel c ∉ tr → PoolLabel.arrive c ∉ tr →
    i + 1 ≤ serveCount tr → c ∉ s'.queue := by
  intro tr
  induction tr with
  | nil => intro s s' i _ _ _ _ _ hs; simp [serveCount] at hs
  | cons l tr ih =>
    intro s s' i h hget hcount hnc hna hs
    rw [runLabels] at h
    cases ha : applyLabel s l with
    | none => rw [ha] at h; simp at h
    | some s1 =>
      rw [ha] at h
      have hnc' : PoolLabel.cancel c ∉ tr := fun hx => hnc (by simp [hx])
      have hna' : PoolLabel.arrive c ∉ tr := fun hx => hna (by simp [hx])
      cases l with
      | arrive c' =>
        have hcc : c' ≠ c := fun hx => hna (by simp [hx])
        simp only [applyLabel, Option.some.injEq] at ha
        have hilen : i < s.queue.length := by
          obtain ⟨hlt, _⟩ := List.getElem?_eq_some.mp hget
          exact hlt
        refine ih s1 s' i h ?_ ?_ hnc' hna' (by simpa [serveCount] using hs)
        · rw [← ha]
          simpa [List.getElem?_append_left hilen] using hget
        · rw [← ha]
          simp [List.count_append, hcount, List.count_singleton, hcc]
      | serve =>
        simp only [applyLabel] at ha
        cases hf : s.free with
        | zero => rw [hf] at ha; simp at ha
        | succ f =>
          rw [hf] at ha
          cases hq : s.queue with
          | nil => rw [hq] at ha; simp at ha
          | cons x q =>
            rw [hq] at ha
            simp only [Option.some.injEq] at ha
            cases i with
            | zero =>
              have hx : x = c := by
                rw [hq] at hget
                simpa using hget
              subst hx
              have hout : x ∉ q := by
                rw [hq] at hcount
                simp [List.count_cons] at hcount
                exact List.count_eq_zero.mp hcount
              refine notin_queue_preserved x tr s1 s' h ?_ hna'
              rw [← ha]
              exact hout
            | succ j =>
              have hget' : q[j]? = some c := by
                rw [hq] at hget
                simpa using hget
              have hxc : x ≠ c := by
                intro hx
                rw [hq, hx] at hcount
                have hcq : c ∈ q := List.getElem?_mem hget'
                simp [List.count_cons] at hcount
                exact (List.count_eq_zero.mp hcount) hcq
              have hcount' : q.count c = 1 := by
                rw [hq] at hcount
                simpa [List.count_cons, hxc] using hcount
              refine ih s1 s' j h ?_ ?_ hnc' hna'
                (by simpa [serveCount] using hs)
              · rw [← ha]; exact hget'
              · rw [← ha]; exact hcount'
      | release =>
        simp only [applyLabel] at ha
        cases hh : s.held with
        | zero => rw [hh] at ha; simp at ha
        | succ hd =>
          rw [hh] at ha
          simp only [Option.some.injEq] at ha
          refine ih s1 s' i h ?_ ?_ hnc' hna' (by simpa [serveCount] using hs)
          · rw [← ha]; exact hget
          · rw [← ha]; exact hcount
      | cancel c' =>
        have hcc : c ≠ c' := fun hx => hnc (by simp [hx])
        simp only [applyLabel] at ha
        by_cases hcq : c' ∈ s.queue
        · simp only [hcq, if_true, Option.some.injEq] at ha
          obtain ⟨j, hj1, hj2⟩ := getElem_erase_le c c' hcc s.queue i hget
          refine ih s1 s' j h ?_ ?_ hnc' hna'
            (by have := serveCount (PoolLabel.cancel c' :: tr)
                simp [serveCount] at hs
                omega)
          · rw [← ha]; exact hj2
          · rw [← ha]
            simp only
            rw [List.count_erase_of_ne hcc]
            exact hcount
        · simp [hcq] at ha

/-- C9: the client pool bounds concurrency.  In every state reachable from
the freshly initialised pool, at most `parallelClients = 16` callers hold a
checked-out entry and the pool plus the holders account for exactly 16
entries (so the pool never holds more than 16); a checkout blocks exactly
while no entry is free and becomes enabled for the longest-waiting caller as
soon as one is free; `withClientFromPool` always pairs its checkout with a
checkin — also when the callback returns an error — and fails with a
distinguishable error instead of blocking when the caller's context is
already done; and a blocked caller at queue position `i` is served once
`i + 1` serve events have happened, provided it neither cancels nor
re-arrives (the runtime serves blocked receivers in FIFO order). -/
theorem C9_clientPool_bounded :
    (∀ (tr : List PoolLabel) (s : PoolState),
      runLabels poolInit tr = some s →
      s.held ≤ parallelClients ∧ s.free + s.held = parallelClients
        ∧ s.free ≤ parallelClients)
    ∧ (∀ s : PoolState, s.free = 0 → applyLabel s .serve = none)
    ∧ (∀ (s : PoolState) (f c : Nat) (q : List Nat),
        s.free = f + 1 → s.queue = c :: q →
        applyLabel s .serve
          = some { free := f, held := s.held + 1, queue := q })
    ∧ (∀ (ctxDone : Bool) (cb : ClientCallOutcome),
        (withClientFromPool ctxDone cb).1.count PoolLabel.release
          = (withClientFromPool ctxDone cb).1.count PoolLabel.serve
        ∧ (ctxDone = false →
            (withClientFromPool ctxDone cb).1
              = [PoolLabel.serve, PoolLabel.release]
            ∧ (withClientFromPool ctxDone cb).2.2 = cb.err)
        ∧ (ctxDone = true →
            withClientFromPool ctxDone cb
              = ([], ([], some K8sError.failedWaitingForFreeClient))))
    ∧ (∀ (tr : List PoolLabel) (s s' : PoolState) (c i : Nat),
        runLabels s tr = some s' →
        s.queue[i]? = some c → s.queue.count c = 1 →
        PoolLabel.cancel c ∉ tr → PoolLabel.arrive c ∉ tr →
        i + 1 ≤ serveCount tr → c ∉ s'.queue) := by
  refine ⟨?_, ?_, ?_, ?_, ?_⟩
  · intro tr s h
    have hsum := runLabels_sum tr poolInit s h
    simp [poolInit] at hsum
    refine ⟨by omega, by omega, by omega⟩
  · intro s h
    simp [applyLabel, h]
  · intro s f c q hf hq
    simp [applyLabel, hf, hq]
  · intro ctxDone cb
    cases ctxDone with
    | false => exact ⟨rfl, fun _ => ⟨rfl, rfl⟩, fun hc => by simp at hc⟩
    | true => exact ⟨rfl, fun hc => by simp at hc, fun _ => rfl⟩
  · intro tr s s' c i h hget hcount hnc hna hs
    exact fifo_served c tr s s' i h hget hcount hnc hna hs

/-- C9 (witness): the invariant after a concrete arrive/serve/release trace,
a blocked checkout at zero free entries, an enabled checkout with one free
entry, the checkin emitted although the callback failed, and a queued caller
served after one release and one serve. -/
theorem C9_witness :
    (poolInit.held ≤ parallelClients
      ∧ poolInit.free + poolInit.held = parallelClients
      ∧ poolInit.free ≤ parallelClients)
    ∧ applyLabel (PoolState.mk 0 16 [3]) .serve = none
    ∧ applyLabel (PoolState.mk 1 15 [3]) .serve
        = some (PoolState.mk 0 16 [])
    ∧ (withClientFromPool false
        (ClientCallOutcome.mk [] (some (K8sError.transport ("boom"))))).1.count
          PoolLabel.release
      = (withClientFromPool false
          (ClientCallOutcome.mk [] (some (K8sError.transport ("boom"))))).1.count
            PoolLabel.serve
    ∧ (3 : Nat) ∉ (PoolState.mk 0 16 []).queue := by
  refine ⟨?_, ?_, ?_, ?_, ?_⟩
  · exact C9_clientPool_bounded.1 trC9 poolInit rfl
  · exact C9_clientPool_bounded.2.1 (PoolState.mk 0 16 [3]) rfl
  · exact C9_clientPool_bounded.2.2.1 (PoolState.mk 1 15 [3]) 0 3 [] rfl rfl
  · exact (C9_clientPool_bounded.2.2.2.1 false
      (ClientCallOutcome.mk [] (some (K8sError.transport ("boom"))))).1
  · exact C9_clientPool_bounded.2.2.2.2 [.release, .serve]
      (PoolState.mk 0 16 [3]) (PoolState.mk 0 16 []) 3 0 rfl rfl rfl
      (by decide) (by decide) (by decide)

/-! ## Decimal rendering and parsing lemmas -/

theorem digitVal_digitChar (n : Nat) (h : n < 10) :
    digitVal (digitChar n) = some n := by
  interval_cases n <;> rfl

theorem digitVal_isSome_ne (c : Char) (h : (digitVal c).isSome = true) :
    ¬ c = ('.') ∧ ¬ c = ('[') ∧ ¬ c = (']') := by
  unfold digitVal at h
  split_ifs at h <;>
    first
      | (subst_vars; exact ⟨by decide, by decide, by decide⟩)
      | simp at h

theorem natToCharsAux_digits :
    ∀ (fuel n : Nat), n < fuel → ∀ c ∈ natToCharsAux fuel n,
      (digitVal c).isSome = true := by
  intro fuel
  induction fuel with
  | zero => intro n h; omega
  | succ fuel ih =>
    intro n h c hc
    by_cases h10 : n < 10
    · simp [natToCharsAux, h10] at hc
      rw [hc, digitVal_digitChar n h10]
      rfl
    · simp only [natToCharsAux, h10, if_false] at hc
      rcases List.mem_append.mp hc with hm | hm
      · have hdiv : n / 10 < fuel := by
          have := Nat.div_lt_self (show 0 < n by omega) (show 1 < 10 by omega)
          omega
        exact ih (n / 10) hdiv c hm
      · simp at hm
        rw [hm, digitVal_digitChar (n % 10) (Nat.mod_lt n (by omega))]
        rfl

theorem natToChars_digits (n : Nat) :
    ∀ c ∈ natToChars n, (digitVal c).isSome = true :=
  natToCharsAux_digits (n + 1) n (by omega)

theorem natToChars_not_sep (n : Nat) :
    ∀ c ∈ natToChars n, ¬ c = ('.') ∧ ¬ c = ('[') ∧ ¬ c = (']') :=
  fun c hc => digitVal_isSome_ne c (natToChars_digits n c hc)

theorem charsToNatAux_append :
    ∀ (l1 l2 : List Char) (acc : Nat),
    charsToNatAux (l1 ++ l2) acc
      = match charsToNatAux l1 acc with
        | some r => charsToNatAux l2 r
        | none => none := by
  intro l1
  induction l1 with
  | nil => intro l2 acc; rfl
  | cons c l1 ih =>
    intro l2 acc
    show charsToNatAux (c :: (l1 ++ l2)) acc = _
    rw [charsToNatAux]
    cases hd : digitVal c with
    | none => simp [charsToNatAux, hd]
    | some d => simp [charsToNatAux, hd, ih]

theorem natToCharsAux_value :
    ∀ (fuel n acc : Nat), n < fuel →
    ∃ m, 0 < m ∧ n < 10 ^ m
      ∧ charsToNatAux (natToCharsAux fuel n) acc = some (acc * 10 ^ m + n) := by
  intro fuel
  induction fuel with
  | zero => intro n acc h; omega
  | succ fuel ih =>
    intro n acc h
    by_cases h10 : n < 10
    · refine ⟨1, by omega, by omega, ?_⟩
      simp only [natToCharsAux, h10, if_true]
      rw [charsToNatAux, digitVal_digitChar n h10]
      simp [charsToNatAux]
    · have hdiv : n / 10 < fuel := by
        have := Nat.div_lt_self (show 0 < n by omega) (show 1 < 10 by omega)
        omega
      obtain ⟨m, hm0, hmlt, hmv⟩ := ih (n / 10) acc hdiv
      refine ⟨m + 1, by omega, ?_, ?_⟩
      · have : 10 ^ (m + 1) = 10 * 10 ^ m := by ring
        rw [this]
        omega
      · simp only [natToCharsAux, h10, if_false]
        rw [charsToNatAux_append, hmv]
        show charsToNatAux [digitChar (n % 10)] (acc * 10 ^ m + n / 10)
          = some (acc * 10 ^ (m + 1) + n)
        rw [charsToNatAux, digitVal_digitChar (n % 10) (Nat.mod_lt n (by omega))]
        show charsToNatAux [] ((acc * 10 ^ m + n / 10) * 10 + n % 10)
          = some (acc * 10 ^ (m + 1) + n)
        rw [charsToNatAux]
        simp only [Option.some.injEq]
        have hpow : 10 ^ (m + 1) = 10 ^ m * 10 := by ring
        rw [hpow]
        have h1 : (acc * 10 ^ m + n / 10) * 10
            = acc * (10 ^ m * 10) + n / 10 * 10 := by ring
        omega

theorem natToCharsAux_ne_nil :
    ∀ (fuel n : Nat), n < fuel → natToCharsAux fuel n ≠ [] := by
  intro fuel
  cases fuel with
  | zero => intro n h; omega
  | succ fuel =>
    intro n _
    by_cases h10 : n < 10
    · simp [natToCharsAux, h10]
    · simp [natToCharsAux, h10]

theorem charsToNat_natToChars (n : Nat) : charsToNat (natToChars n) = some n := by
  obtain ⟨m, _, _, hv⟩ := natToCharsAux_value (n + 1) n 0 (by omega)
  have hne := natToCharsAux_ne_nil (n + 1) n (by omega)
  unfold natToChars at *
  cases hA : natToCharsAux (n + 1) n with
  | nil => exact absurd hA hne
  | cons c cs =>
    rw [hA] at hv
    rw [charsToNat]
    rw [hv]
    simp

/-! ## Split lemmas for path strings -/

theorem splitCore_append_nosep (sep : Char) :
    ∀ (l1 l2 : List Char), (∀ c ∈ l1, ¬ c = sep) →
    splitCore sep (l1 ++ l2)
      = (l1 ++ (splitCore sep l2).1, (splitCore sep l2).2) := by
  intro l1
  induction l1 with
  | nil => intro l2 _; rfl
  | cons c l1 ih =>
    intro l2 h
    have hc : ¬ c = sep := h c (by simp)
    show splitCore sep (c :: (l1 ++ l2)) = _
    rw [splitCore]
    rw [ih l2 (fun x hx => h x (by simp [hx]))]
    simp [hc]

theorem splitCore_prefix_containers (rest : List Char) :
    splitCore ('.') (("spec.template.spec.containers[").toList ++ rest)
    = (("spec").toList, ("template").toList :: ("spec").toList ::
        ((("containers[").toList ++ (splitCore ('.') rest).1))
          :: (splitCore ('.') rest).2) := rfl

theorem splitCore_prefix_limits (rest : List Char) :
    splitCore ('.') (("spec.limits[").toList ++ rest)
    = (("spec").toList,
        ((("limits[").toList ++ (splitCore ('.') rest).1))
          :: (splitCore ('.') rest).2) := rfl

theorem splitCore_containers_lbkt (x : List Char) :
    splitCore ('[') (("containers[").toList ++ x)
    = (("containers").toList,
        (splitCore ('[') x).1 :: (splitCore ('[') x).2) := rfl

theorem splitCore_limits_lbkt (x : List Char) :
    splitCore ('[') (("limits[").toList ++ x)
    = (("limits").toList,
        (splitCore ('[') x).1 :: (splitCore ('[') x).2) := rfl

/-! ## Path parse lemmas -/

theorem parseBracketPiece_digits (D : List Char)
    (h : ∀ c ∈ D, ¬ c = (']')) :
    parseBracketPiece (D ++ [(']')]) = charsToNat D := by
  unfold parseBracketPiece splitOnChar
  rw [splitCore_append_nosep (']') D [(']')] h]
  show charsToNat (D ++ []) = charsToNat D
  rw [List.append_nil]

theorem parseBracketPiece_malformed (D : List Char)
    (h : ∀ c ∈ D, ¬ c = (']')) :
    parseBracketPiece (D ++ ("]resources").toList) = none := by
  unfold parseBracketPiece splitOnChar
  rw [splitCore_append_nosep (']') D (("]resources").toList) h]
  rfl

theorem parseChunk_containers_idx (i : Nat) :
    parseChunk (("containers[").toList ++ (natToChars i ++ [(']')]))
      = some [PathSeg.field ("containers"), PathSeg.idx i] := by
  have hb : ∀ c ∈ natToChars i, ¬ c = ('[') :=
    fun c hc => (natToChars_not_sep i c hc).2.1
  have hr : ∀ c ∈ natToChars i, ¬ c = (']') :=
    fun c hc => (natToChars_not_sep i c hc).2.2
  unfold parseChunk splitOnChar
  rw [splitCore_containers_lbkt]
  rw [splitCore_append_nosep ('[') (natToChars i) [(']')] hb]
  show (match allSome (List.map parseBracketPiece [natToChars i ++ [(']')]]) with
        | some idxs =>
          some (PathSeg.field ("containers") :: idxs.map PathSeg.idx)
        | none => none)
      = some [PathSeg.field ("containers"), PathSeg.idx i]
  simp only [List.map]
  rw [parseBracketPiece_digits (natToChars i) hr, charsToNat_natToChars]
  rfl

theorem parseChunk_containers_malformed (i : Nat) :
    parseChunk (("containers[").toList
      ++ (natToChars i ++ ("]resources").toList)) = none := by
  have hb : ∀ c ∈ natToChars i, ¬ c = ('[') :=
    fun c hc => (natToChars_not_sep i c hc).2.1
  have hr : ∀ c ∈ natToChars i, ¬ c = (']') :=
    fun c hc => (natToChars_not_sep i c hc).2.2
  unfold parseChunk splitOnChar
  rw [splitCore_containers_lbkt]
  rw [splitCore_append_nosep ('[') (natToChars i) (("]resources").toList) hb]
  show (match allSome (List.map parseBracketPiece
          [natToChars i ++ ("]resources").toList]) with
        | some idxs =>
          some (PathSeg.field ("containers") :: idxs.map PathSeg.idx)
        | none => none)
      = none
  simp only [List.map]
  rw [parseBracketPiece_malformed (natToChars i) hr]
  rfl

theorem parseChunk_limits_idx (i : Nat) :
    parseChunk (("limits[").toList ++ (natToChars i ++ [(']')]))
      = some [PathSeg.field ("limits"), PathSeg.idx i] := by
  have hb : ∀ c ∈ natToChars i, ¬ c = ('[') :=
    fun c hc => (natToChars_not_sep i c hc).2.1
  have hr : ∀ c ∈ natToChars i, ¬ c = (']') :=
    fun c hc => (natToChars_not_sep i c hc).2.2
  unfold parseChunk splitOnChar
  rw [splitCore_limits_lbkt]
  rw [splitCore_append_nosep ('[') (natToChars i) [(']')] hb]
  show (match allSome (List.map parseBracketPiece [natToChars i ++ [(']')]]) with
        | some idxs => some (PathSeg.field ("limits") :: idxs.map PathSeg.idx)
        | none => none)
      = some [PathSeg.field ("limits"), PathSeg.idx i]
  simp only [List.map]
  rw [parseBracketPiece_digits (natToChars i) hr, charsToNat_natToChars]
  rfl

theorem parse_pathContainers : parsePath pathContainers = some segsContainers :=
  rfl

theorem parse_pathSpecPorts :
    parsePath pathSpecPorts = some segsSpecPorts := rfl

theorem parse_pathLimits :
    parsePath pathLimits
      = some [PathSeg.field ("spec"), PathSeg.field ("limits")] := rfl

theorem parse_ports_path (i : Nat) :
    parsePath (indexedPath pathContainers i ++ (".ports").toList)
      = some (portsSegs i) := by
  have hd : ∀ c ∈ natToChars i, ¬ c = ('.') :=
    fun c hc => (natToChars_not_sep i c hc).1
  have h0 : indexedPath pathContainers i ++ (".ports").toList
      = ("spec.template.spec.containers[").toList
        ++ (natToChars i ++ ("].ports").toList) := by
    show (pathContainers ++ ('[') :: (natToChars i ++ [(']')]))
        ++ (".ports").toList = _
    rw [show ("spec.template.spec.containers[").toList
        ++ (natToChars i ++ ("].ports").toList)
        = pathContainers ++ ('[') :: (natToChars i ++ (']') :: (".ports").toList)
      from rfl]
    simp [List.append_assoc]
  rw [h0]
  unfold parsePath splitOnChar
  rw [splitCore_prefix_containers]
  rw [splitCore_append_nosep ('.') (natToChars i) (("].ports").toList) hd]
  show (allSome (List.map parseChunk
      [("spec").toList, ("template").toList, ("spec").toList,
       ("containers[").toList ++ (natToChars i ++ [(']')]),
       ("ports").toList])).map List.flatten = some (portsSegs i)
  simp only [List.map]
  rw [parseChunk_containers_idx i]
  rfl

theorem parse_malformed_limits (i : Nat) :
    parsePath (indexedPath pathContainers i ++ ("resources.limits").toList)
      = none := by
  have hd : ∀ c ∈ natToChars i, ¬ c = ('.') :=
    fun c hc => (natToChars_not_sep i c hc).1
  have h0 : indexedPath pathContainers i ++ ("resources.limits").toList
      = ("spec.template.spec.containers[").toList
        ++ (natToChars i ++ ("]resources.limits").toList) := by
    show (pathContainers ++ ('[') :: (natToChars i ++ [(']')]))
        ++ ("resources.limits").toList = _
    rw [show ("spec.template.spec.containers[").toList
        ++ (natToChars i ++ ("]resources.limits").toList)
        = pathContainers
          ++ ('[') :: (natToChars i ++ (']') :: ("resources.limits").toList)
      from rfl]
    simp [List.append_assoc]
  rw [h0]
  unfold parsePath splitOnChar
  rw [splitCore_prefix_containers]
  rw [splitCore_append_nosep ('.') (natToChars i)
    (("]resources.limits").toList) hd]
  show (allSome (List.map parseChunk
      [("spec").toList, ("template").toList, ("spec").toList,
       ("containers[").toList ++ (natToChars i ++ ("]resources").toList),
       ("limits").toList])).map List.flatten = none
  simp only [List.map]
  rw [parseChunk_containers_malformed i]
  rfl

theorem parse_malformed_requests (i : Nat) :
    parsePath (indexedPath pathContainers i ++ ("resources.requests").toList)
      = none := by
  have hd : ∀ c ∈ natToChars i, ¬ c = ('.') :=
    fun c hc => (natToChars_not_sep i c hc).1
  have h0 : indexedPath pathContainers i ++ ("resources.requests").toList
      = ("spec.template.spec.containers[").toList
        ++ (natToChars i ++ ("]resources.requests").toList) := by
    show (pathContainers ++ ('[') :: (natToChars i ++ [(']')]))
        ++ ("resources.requests").toList = _
    rw [show ("spec.template.spec.containers[").toList
        ++ (natToChars i ++ ("]resources.requests").toList)
        = pathContainers
          ++ ('[') :: (natToChars i ++ (']') :: ("resources.requests").toList)
      from rfl]
    simp [List.append_assoc]
  rw [h0]
  unfold parsePath splitOnChar
  rw [splitCore_prefix_containers]
  rw [splitCore_append_nosep ('.') (natToChars i)
    (("]resources.requests").toList) hd]
  show (allSome (List.map parseChunk
      [("spec").toList, ("template").toList, ("spec").toList,
       ("containers[").toList ++ (natToChars i ++ ("]resources").toList),
       ("requests").toList])).map List.flatten = none
  simp only [List.map]
  rw [parseChunk_containers_malformed i]
  rfl

theorem parse_limits_default (i : Nat) :
    parsePath (indexedPath pathLimits i ++ (".default").toList)
      = some (limitsItemSegs i ("default")) := by
  have hd : ∀ c ∈ natToChars i, ¬ c = ('.') :=
    fun c hc => (natToChars_not_sep i c hc).1
  have h0 : indexedPath pathLimits i ++ (".default").toList
      = ("spec.limits[").toList ++ (natToChars i ++ ("].default").toList) := by
    show (pathLimits ++ ('[') :: (natToChars i ++ [(']')]))
        ++ (".default").toList = _
    rw [show ("spec.limits[").toList ++ (natToChars i ++ ("].default").toList)
        = pathLimits ++ ('[') :: (natToChars i ++ (']') :: (".default").toList)
      from rfl]
    simp [List.append_assoc]
  rw [h0]
  unfold parsePath splitOnChar
  rw [splitCore_prefix_limits]
  rw [splitCore_append_nosep ('.') (natToChars i) (("].default").toList) hd]
  show (allSome (List.map parseChunk
      [("spec").toList,
       ("limits[").toList ++ (natToChars i ++ [(']')]),
       ("default").toList])).map List.flatten
    = some (limitsItemSegs i ("default"))
  simp only [List.map]
  rw [parseChunk_limits_idx i]
  rfl

theorem parse_limits_defaultRequest (i : Nat) :
    parsePath (indexedPath pathLimits i ++ (".defaultRequest").toList)
      = some (limitsItemSegs i ("defaultRequest")) := by
  have hd : ∀ c ∈ natToChars i, ¬ c = ('.') :=
    fun c hc => (natToChars_not_sep i c hc).1
  have h0 : indexedPath pathLimits i ++ (".defaultRequest").toList
      = ("spec.limits[").toList
        ++ (natToChars i ++ ("].defaultRequest").toList) := by
    show (pathLimits ++ ('[') :: (natToChars i ++ [(']')]))
        ++ (".defaultRequest").toList = _
    rw [show ("spec.limits[").toList
        ++ (natToChars i ++ ("].defaultRequest").toList)
        = pathLimits
          ++ ('[') :: (natToChars i ++ (']') :: (".defaultRequest").toList)
      from rfl]
    simp [List.append_assoc]
  rw [h0]
  unfold parsePath splitOnChar
  rw [splitCore_prefix_limits]
  rw [splitCore_append_nosep ('.') (natToChars i)
    (("].defaultRequest").toList) hd]
  show (allSome (List.map parseChunk
      [("spec").toList,
       ("limits[").toList ++ (natToChars i ++ [(']')]),
       ("defaultRequest").toList])).map List.flatten
    = some (limitsItemSegs i ("defaultRequest"))
  simp only [List.map]
  rw [parseChunk_limits_idx i]
  rfl

/-! ## Tree navigation and modification lemmas -/

theorem lookupField_modifyField (n : String) (g : Json → Json) :
    ∀ fs : List (String × Json),
    lookupField (modifyField n g fs) n = (lookupField fs n).map g := by
  intro fs
  induction fs with
  | nil => rfl
  | cons kv fs ih =>
    by_cases h : kv.1 = n
    · simp [modifyField, lookupField, h]
    · simp [modifyField, lookupField, h, ih]

theorem lookupField_modifyField_ne (n m : String) (g : Json → Json)
    (hnm : ¬ m = n) :
    ∀ fs : List (String × Json),
    lookupField (modifyField m g fs) n = lookupField fs n := by
  intro fs
  induction fs with
  | nil => rfl
  | cons kv fs ih =>
    by_cases h : kv.1 = m
    · simp [modifyField, lookupField, h, hnm]
    · simp [modifyField, lookupField, h, ih]

theorem get?_modifyNth_self (g : Json → Json) :
    ∀ (es : List Json) (i : Nat),
    (modifyNth i g es).get? i = (es.get? i).map g := by
  intro es
  induction es with
  | nil => intro i; cases i <;> rfl
  | cons x xs ih =>
    intro i
    cases i with
    | zero => rfl
    | succ j => simpa [modifyNth] using ih j

theorem get?_modifyNth_ne (g : Json → Json) :
    ∀ (es : List Json) (i j : Nat), ¬ i = j →
    (modifyNth i g es).get? j = es.get? j := by
  intro es
  induction es with
  | nil => intro i j _; cases i <;> rfl
  | cons x xs ih =>
    intro i j h
    cases i with
    | zero =>
      cases j with
      | zero => exact absurd rfl h
      | succ j' => rfl
    | succ i' =>
      cases j with
      | zero => rfl
      | succ j' => simpa [modifyNth] using ih i' j' (fun hc => h (by rw [hc]))

theorem getAtSegs_append :
    ∀ (p q : List PathSeg) (o : Json),
    getAtSegs (p ++ q) o = (getAtSegs p o).bind (getAtSegs q) := by
  intro p
  induction p with
  | nil => intro q o; rfl
  | cons seg p ih =>
    intro q o
    cases seg with
    | field n =>
      cases o with
      | obj fs =>
        show getAtSegs (.field n :: (p ++ q)) (.obj fs) = _
        rw [getAtSegs]
        cases hl : lookupField fs n with
        | none => simp [getAtSegs, hl]
        | some v => simp [getAtSegs, hl, ih]
      | null => rfl
      | bool b => rfl
      | num m => rfl
      | str s => rfl
      | arr es => rfl
    | idx i =>
      cases o with
      | arr es =>
        show getAtSegs (.idx i :: (p ++ q)) (.arr es) = _
        simp only [getAtSegs]
        cases hl : es.get? i with
        | none => rfl
        | some v => exact ih q v
      | null => rfl
      | bool b => rfl
      | num m => rfl
      | str s => rfl
      | obj fs => rfl

theorem getAtSegs_modifyAtSegs_self :
    ∀ (segs : List PathSeg) (o v : Json) (f : Json → Json),
    getAtSegs segs o = some v →
    getAtSegs segs (modifyAtSegs segs f o) = some (f v) := by
  intro segs
  induction segs with
  | nil =>
    intro o v f h
    simp [getAtSegs] at h
    rw [← h]
    rfl
  | cons seg rest ih =>
    intro o v f h
    cases seg with
    | field n =>
      cases o with
      | obj fs =>
        rw [getAtSegs] at h
        cases hl : lookupField fs n with
        | none => rw [hl] at h; simp at h
        | some w =>
          rw [hl] at h
          simp only [] at h
          show getAtSegs (.field n :: rest)
            (.obj (modifyField n (modifyAtSegs rest f) fs)) = some (f v)
          rw [getAtSegs, lookupField_modifyField, hl]
          simpa using ih w v f h
      | null => simp [getAtSegs] at h
      | bool b => simp [getAtSegs] at h
      | num m => simp [getAtSegs] at h
      | str s => simp [getAtSegs] at h
      | arr es => simp [getAtSegs] at h
    | idx i =>
      cases o with
      | arr es =>
        rw [getAtSegs] at h
        cases hl : es.get? i with
        | none => rw [hl] at h; simp at h
        | some w =>
          rw [hl] at h
          simp only [] at h
          show getAtSegs (.idx i :: rest)
            (.arr (modifyNth i (modifyAtSegs rest f) es)) = some (f v)
          rw [getAtSegs, get?_modifyNth_self, hl]
          simpa using ih w v f h
      | null => simp [getAtSegs] at h
      | bool b => simp [getAtSegs] at h
      | num m => simp [getAtSegs] at h
      | str s => simp [getAtSegs] at h
      | obj fs => simp [getAtSegs] at h

theorem getAtSegs_modify_diverge :
    ∀ (common : List PathSeg) (x y : PathSeg) (s' t' : List PathSeg)
      (f : Json → Json) (o : Json), ¬ x = y →
    getAtSegs (common ++ y :: t') (modifyAtSegs (common ++ x :: s') f o)
      = getAtSegs (common ++ y :: t') o := by
  intro common
  induction common with
  | nil =>
    intro x y s' t' f o h
    cases x with
    | field n =>
      cases o with
      | obj fs =>
        cases y with
        | field m =>
          have hnm : ¬ n = m := fun hc => h (by rw [hc])
          show getAtSegs (.field m :: t')
            (.obj (modifyField n (modifyAtSegs s' f) fs)) = _
          simp only [getAtSegs]
          rw [lookupField_modifyField_ne m n (modifyAtSegs s' f) hnm]
        | idx j => rfl
      | null => rfl
      | bool b => rfl
      | num m => rfl
      | str s => rfl
      | arr es => rfl
    | idx i =>
      cases o with
      | arr es =>
        cases y with
        | field m => rfl
        | idx j =>
          have hij : ¬ i = j := fun hc => h (by rw [hc])
          show getAtSegs (.idx j :: t')
            (.arr (modifyNth i (modifyAtSegs s' f) es)) = _
          simp only [getAtSegs]
          rw [get?_modifyNth_ne (modifyAtSegs s' f) es i j hij]
      | null => rfl
      | bool b => rfl
      | num m => rfl
      | str s => rfl
      | obj fs => rfl
  | cons seg common ih =>
    intro x y s' t' f o h
    cases seg with
    | field n =>
      cases o with
      | obj fs =>
        show getAtSegs (.field n :: (common ++ y :: t'))
          (.obj (modifyField n (modifyAtSegs (common ++ x :: s') f) fs))
          = getAtSegs (.field n :: (common ++ y :: t')) (.obj fs)
        simp only [getAtSegs]
        rw [lookupField_modifyField]
        cases hl : lookupField fs n with
        | none => rfl
        | some w => exact ih x y s' t' f w h
      | null => rfl
      | bool b => rfl
      | num m => rfl
      | str s => rfl
      | arr es => rfl
    | idx i =>
      cases o with
      | arr es =>
        show getAtSegs (.idx i :: (common ++ y :: t'))
          (.arr (modifyNth i (modifyAtSegs (common ++ x :: s') f) es))
          = getAtSegs (.idx i :: (common ++ y :: t')) (.arr es)
        simp only [getAtSegs]
        rw [get?_modifyNth_self]
        cases hl : es.get? i with
        | none => rfl
        | some w => exact ih x y s' t' f w h
      | null => rfl
      | bool b => rfl
      | num m => rfl
      | str s => rfl
      | obj fs => rfl

theorem getAtSegs_modify_of_diverges (segs target : List PathSeg)
    (f : Json → Json) (o : Json) (h : Diverges segs target) :
    getAtSegs target (modifyAtSegs segs f o) = getAtSegs target o := by
  obtain ⟨common, x, y, s', t', h1, h2, h3⟩ := h
  rw [h1, h2]
  exact getAtSegs_modify_diverge common x y s' t' f o h3

/-! ## Fixup operations: case analyses and preservation -/

theorem fixPortsAt_cases (b : Bool) (p : List Char) (o : Json) :
    fixPortsAt b p o = o
    ∨ ∃ segs, parsePath p = some segs
        ∧ fixPortsAt b p o = modifyAtSegs segs fixPortsValue o := by
  unfold fixPortsAt
  split
  · exact Or.inl rfl
  · split
    · exact Or.inl rfl
    · rename_i segs heq
      split
      · split
        · exact Or.inr ⟨segs, heq, rfl⟩
        · exact Or.inl rfl
      · exact Or.inl rfl

theorem fixStringTypeAt_cases (b : Bool) (p : List Char) (key : String)
    (o : Json) :
    fixStringTypeAt b p key o = o
    ∨ ∃ segs g, parsePath p = some segs
        ∧ fixStringTypeAt b p key o = modifyAtSegs segs g o := by
  unfold fixStringTypeAt
  split
  · exact Or.inl rfl
  · split
    · exact Or.inl rfl
    · rename_i segs heq
      split
      · split
        · exact Or.inl rfl
        · exact Or.inl rfl
        · exact Or.inr ⟨segs, _, heq, rfl⟩
      · exact Or.inl rfl

theorem fixPortsAt_preserves (b : Bool) (p : List Char)
    (target : List PathSeg) (o : Json)
    (h : ∀ segs, parsePath p = some segs → Diverges segs target) :
    getAtSegs target (fixPortsAt b p o) = getAtSegs target o := by
  rcases fixPortsAt_cases b p o with he | ⟨segs, hp, he⟩
  · rw [he]
  · rw [he]
    exact getAtSegs_modify_of_diverges segs target _ o (h segs hp)

theorem fixStringTypeAt_preserves (b : Bool) (p : List Char) (key : String)
    (target : List PathSeg) (o : Json)
    (h : ∀ segs, parsePath p = some segs → Diverges segs target) :
    getAtSegs target (fixStringTypeAt b p key o) = getAtSegs target o := by
  rcases fixStringTypeAt_cases b p key o with he | ⟨segs, g, hp, he⟩
  · rw [he]
  · rw [he]
    exact getAtSegs_modify_of_diverges segs target g o (h segs hp)

theorem fixStringTypeAt_parse_none (b : Bool) (p : List Char) (key : String)
    (o : Json) (h : parsePath p = none) :
    fixStringTypeAt b p key o = o := by
  unfold fixStringTypeAt
  by_cases hb : b = false
  · rw [if_pos hb]
  · rw [if_neg hb, h]

theorem fixContainerAt_preserves (ndf ntf : Bool) (i : Nat)
    (target : List PathSeg) (o : Json)
    (hports : Diverges (portsSegs i) target) :
    getAtSegs target (fixContainerAt ndf ntf (indexedPath pathContainers i) o)
      = getAtSegs target o := by
  unfold fixContainerAt
  rw [fixStringTypeAt_parse_none _ _ _ _ (parse_malformed_requests i)]
  rw [fixStringTypeAt_parse_none _ _ _ _ (parse_malformed_limits i)]
  refine fixPortsAt_preserves ndf _ target o ?_
  intro segs hp
  rw [parse_ports_path i] at hp
  have hseg := Option.some.inj hp
  rw [← hseg]
  exact hports

theorem fixLimitsAt_preserves (ntf : Bool) (target : List PathSeg) (o : Json)
    (hd : ∀ i, Diverges (limitsItemSegs i ("default")) target)
    (hr : ∀ i, Diverges (limitsItemSegs i ("defaultRequest")) target) :
    getAtSegs target (fixLimitsAt ntf pathLimits o) = getAtSegs target o := by
  have hstep : ∀ (i : Nat) (acc : Json),
      getAtSegs target (fixStringTypeAt ntf
        (indexedPath pathLimits i ++ (".defaultRequest").toList) ("cpu")
        (fixStringTypeAt ntf
          (indexedPath pathLimits i ++ (".default").toList) ("cpu") acc))
      = getAtSegs target acc := by
    intro i acc
    rw [fixStringTypeAt_preserves ntf _ _ target _ (fun segs hp => by
      rw [parse_limits_defaultRequest i] at hp
      rw [← Option.some.inj hp]
      exact hr i)]
    rw [fixStringTypeAt_preserves ntf _ _ target _ (fun segs hp => by
      rw [parse_limits_default i] at hp
      rw [← Option.some.inj hp]
      exact hd i)]
  have hfold : ∀ (L : List Nat) (acc : Json),
      getAtSegs target (L.foldl (fun acc i =>
        fixStringTypeAt ntf
          (indexedPath pathLimits i ++ (".defaultRequest").toList) ("cpu")
          (fixStringTypeAt ntf
            (indexedPath pathLimits i ++ (".default").toList) ("cpu") acc)) acc)
      = getAtSegs target acc := by
    intro L
    induction L with
    | nil => intro acc; rfl
    | cons i L ihL =>
      intro acc
      rw [List.foldl_cons, ihL, hstep]
  unfold fixLimitsAt
  split
  · rfl
  · split
    · split
      · exact hfold _ o
      · rfl
    · rfl

theorem fixContainersAt_preserves (ndf ntf : Bool) (target : List PathSeg)
    (o : Json) (hports : ∀ i, Diverges (portsSegs i) target) :
    getAtSegs target (fixContainersAt ndf ntf pathContainers o)
      = getAtSegs target o := by
  have hfold : ∀ (L : List Nat) (acc : Json),
      getAtSegs target (L.foldl (fun acc i =>
        fixContainerAt ndf ntf (indexedPath pathContainers i) acc) acc)
      = getAtSegs target acc := by
    intro L
    induction L with
    | nil => intro acc; rfl
    | cons i L ihL =>
      intro acc
      rw [List.foldl_cons, ihL, fixContainerAt_preserves ndf ntf i target acc
        (hports i)]
  unfold fixContainersAt
  split
  · rfl
  · split
    · split
      · exact hfold _ o
      · rfl
    · rfl

/-! ## Divergence facts between the fixup paths -/

theorem portsSegs_diverge (i j : Nat) (h : ¬ i = j) :
    Diverges (portsSegs i) (portsSegs j) :=
  ⟨segsContainers, .idx i, .idx j, [.field ("ports")], [.field ("ports")],
    rfl, rfl, by simp [h]⟩

theorem diverge_specPorts_portsSegs (j : Nat) :
    Diverges segsSpecPorts (portsSegs j) :=
  ⟨[.field ("spec")], .field ("ports"), .field ("template"), [],
    [.field ("spec"), .field ("containers"), .idx j, .field ("ports")],
    rfl, rfl, by simp⟩

theorem diverge_portsSegs_specPorts (i : Nat) :
    Diverges (portsSegs i) segsSpecPorts :=
  ⟨[.field ("spec")], .field ("template"), .field ("ports"),
    [.field ("spec"), .field ("containers"), .idx i, .field ("ports")], [],
    rfl, rfl, by simp⟩

theorem diverge_limitsItem_portsSegs (i j : Nat) (key : String) :
    Diverges (limitsItemSegs i key) (portsSegs j) :=
  ⟨[.field ("spec")], .field ("limits"), .field ("template"),
    [.idx i, .field key],
    [.field ("spec"), .field ("containers"), .idx j, .field ("ports")],
    rfl, rfl, by simp⟩

theorem diverge_limitsItem_specPorts (i : Nat) (key : String) :
    Diverges (limitsItemSegs i key) segsSpecPorts :=
  ⟨[.field ("spec")], .field ("limits"), .field ("ports"),
    [.idx i, .field key], [], rfl, rfl, by simp⟩

/-! ## What the fixups do at their own paths -/

theorem fixPortsAt_apply (p : List Char) (segs : List PathSeg) (o : Json)
    (ps : List Json)
    (hp : parsePath p = some segs)
    (hg : getAtSegs segs o = some (.arr ps))
    (hall : ps.all isObjJson = true) :
    getAtSegs segs (fixPortsAt true p o)
      = some (.arr (ps.map fixPortJson)) := by
  have he : fixPortsAt true p o = modifyAtSegs segs fixPortsValue o := by
    unfold fixPortsAt
    rw [if_neg (by simp), hp]
    show (match getAtSegs segs o with
          | some (.arr es) =>
            if es.all isObjJson = true then modifyAtSegs segs fixPortsValue o
            else o
          | _ => o) = modifyAtSegs segs fixPortsValue o
    rw [hg]
    show (if ps.all isObjJson = true then modifyAtSegs segs fixPortsValue o
          else o) = _
    rw [if_pos hall]
  rw [he, getAtSegs_modifyAtSegs_self segs o (.arr ps) fixPortsValue hg]
  rfl

theorem getAtSegs_ports_idx (cs : List Json) (j : Nat)
    (cj : List (String × Json)) (ps : Json)
    (hj : cs.get? j = some (.obj cj))
    (hports : lookupField cj ("ports") = some ps) :
    getAtSegs [PathSeg.idx j, PathSeg.field ("ports")] (.arr cs) = some ps := by
  show (match cs.get? j with
        | some v => getAtSegs [PathSeg.field ("ports")] v
        | none => none) = some ps
  rw [hj]
  show (match lookupField cj ("ports") with
        | some v => getAtSegs ([] : List PathSeg) v
        | none => none) = some ps
  rw [hports]
  rfl

theorem fixContainersAt_eval (ntf : Bool) (o : Json) (cs : List Json)
    (hc : getAtSegs segsContainers o = some (.arr cs))
    (hall : cs.all isObjJson = true) :
    fixContainersAt true ntf pathContainers o
      = (List.range cs.length).foldl
          (fun acc i =>
            fixContainerAt true ntf (indexedPath pathContainers i) acc) o := by
  unfold fixContainersAt
  rw [parse_pathContainers]
  show (match getAtSegs segsContainers o with
        | some (.arr cs) =>
          if cs.all isObjJson = true then
            (List.range cs.length).foldl
              (fun acc i =>
                fixContainerAt true ntf (indexedPath pathContainers i) acc) o
          else o
        | _ => o) = _
  rw [hc]
  show (if cs.all isObjJson = true then
          (List.range cs.length).foldl
            (fun acc i =>
              fixContainerAt true ntf (indexedPath pathContainers i) acc) o
        else o) = _
  rw [if_pos hall]

theorem fold_preserve_ports (ntf : Bool) (j : Nat) :
    ∀ (L : List Nat) (acc : Json), (∀ i ∈ L, ¬ i = j) →
    getAtSegs (portsSegs j) (L.foldl (fun acc i =>
      fixContainerAt true ntf (indexedPath pathContainers i) acc) acc)
    = getAtSegs (portsSegs j) acc := by
  intro L
  induction L with
  | nil => intro acc _; rfl
  | cons i L ihL =>
    intro acc h
    rw [List.foldl_cons, ihL _ (fun x hx => h x (by simp [hx]))]
    exact fixContainerAt_preserves true ntf i (portsSegs j) acc
      (portsSegs_diverge i j (h i (by simp)))

theorem range_split_at (n j : Nat) (h : j < n) :
    List.range n
      = List.range' 0 j ++ (j :: List.range' (j + 1) (n - j - 1)) := by
  rw [List.range_eq_range']
  have h2 : List.range' 0 j ++ List.range' (0 + j) (n - j)
      = List.range' 0 (n - j + j) := by
    simpa using List.range'_append_1 0 j (n - j)
  have h3 : n - j + j = n := by omega
  rw [h3] at h2
  rw [← h2]
  congr 1
  have h4 : n - j = (n - j - 1) + 1 := by omega
  rw [h4]
  simp [List.range']

theorem FixObjectForPatch_pipeline (k : K8sCluster) (o : Json) :
    FixObjectForPatch k o
      = fixLimitsAt (needsTypeConversionFix k) pathLimits
          (fixPortsAt true pathSpecPorts
            (fixContainersAt true (needsTypeConversionFix k) pathContainers
              o)) := by
  simp [FixObjectForPatch, needsDefaultsFix]
  rfl

/-! ## Claim C5 -/

theorem lookupField_append (n : String) :
    ∀ (fs gs : List (String × Json)),
    lookupField (fs ++ gs) n
      = match lookupField fs n with
        | some v => some v
        | none => lookupField gs n := by
  intro fs
  induction fs with
  | nil => intro gs; rfl
  | cons kv fs ih =>
    intro gs
    by_cases h : kv.1 = n
    · simp [lookupField, h]
    · simp [lookupField, h, ih]

/-- C5: on every server version — the defaults fixup is always in effect —
`FixObjectForPatch` maps each container port list and the service port list
through the per-entry protocol fixup: the transformed lists appear at their
original paths in the result, and per entry the fixup adds
`protocol = "TCP"` to a port that lacked the key while leaving a port that
already specifies a protocol entirely unchanged. -/
theorem C5_fixObjectForPatch_ports (k : K8sCluster) (o : Json) :
    (∀ (cs : List Json) (j : Nat) (cj : List (String × Json))
       (ps : List Json),
      getAtSegs segsContainers o = some (.arr cs) →
      cs.all isObjJson = true →
      cs.get? j = some (.obj cj) →
      lookupField cj ("ports") = some (.arr ps) →
      ps.all isObjJson = true →
      getAtSegs (portsSegs j) (FixObjectForPatch k o)
        = some (.arr (ps.map fixPortJson)))
    ∧ (∀ qs : List Json,
      getAtSegs segsSpecPorts o = some (.arr qs) →
      qs.all isObjJson = true →
      getAtSegs segsSpecPorts (FixObjectForPatch k o)
        = some (.arr (qs.map fixPortJson)))
    ∧ (∀ fs : List (String × Json),
      (lookupField fs ("protocol") = none →
        fixPortJson (.obj fs)
          = .obj (fs ++ [(("protocol"), Json.str ("TCP"))])
        ∧ lookupField (fixPortEntry fs) ("protocol")
            = some (Json.str ("TCP")))
      ∧ ∀ v, lookupField fs ("protocol") = some v →
          fixPortJson (.obj fs) = .obj fs) := by
  refine ⟨?_, ?_, ?_⟩
  · intro cs j cj ps hc hall hj hports hpall
    rw [FixObjectForPatch_pipeline]
    have hjlen : j < cs.length := by
      obtain ⟨hlt, _⟩ := List.get?_eq_some.mp hj
      exact hlt
    have hOrig : getAtSegs (portsSegs j) o = some (.arr ps) := by
      show getAtSegs (segsContainers ++ [.idx j, .field ("ports")]) o = _
      rw [getAtSegs_append, hc]
      exact getAtSegs_ports_idx cs j cj (.arr ps) hj hports
    rw [fixContainersAt_eval (needsTypeConversionFix k) o cs hc hall]
    rw [range_split_at cs.length j hjlen, List.foldl_append, List.foldl_cons]
    have hacc1 : getAtSegs (portsSegs j)
        ((List.range' 0 j).foldl (fun acc i =>
          fixContainerAt true (needsTypeConversionFix k)
            (indexedPath pathContainers i) acc) o)
        = some (.arr ps) := by
      rw [fold_preserve_ports (needsTypeConversionFix k) j (List.range' 0 j) o
        (fun i hi => by
          have := List.mem_range'.mp hi
          omega)]
      exact hOrig
    have hacc2 : getAtSegs (portsSegs j)
        (fixContainerAt true (needsTypeConversionFix k)
          (indexedPath pathContainers j)
          ((List.range' 0 j).foldl (fun acc i =>
            fixContainerAt true (needsTypeConversionFix k)
              (indexedPath pathContainers i) acc) o))
        = some (.arr (ps.map fixPortJson)) := by
      unfold fixContainerAt
      rw [fixStringTypeAt_parse_none _ _ _ _ (parse_malformed_requests j)]
      rw [fixStringTypeAt_parse_none _ _ _ _ (parse_malformed_limits j)]
      exact fixPortsAt_apply _ (portsSegs j) _ ps (parse_ports_path j)
        hacc1 hpall
    rw [fixLimitsAt_preserves (needsTypeConversionFix k) (portsSegs j) _
      (fun i => diverge_limitsItem_portsSegs i j ("default"))
      (fun i => diverge_limitsItem_portsSegs i j ("defaultRequest"))]
    rw [fixPortsAt_preserves true pathSpecPorts (portsSegs j) _
      (fun segs hp => by
        rw [parse_pathSpecPorts] at hp
        rw [← Option.some.inj hp]
        exact diverge_specPorts_portsSegs j)]
    rw [fold_preserve_ports (needsTypeConversionFix k) j
      (List.range' (j + 1) (cs.length - j - 1)) _
      (fun i hi => by
        have := List.mem_range'.mp hi
        omega)]
    exact hacc2
  · intro qs hq hqall
    rw [FixObjectForPatch_pipeline]
    have h1 : getAtSegs segsSpecPorts
        (fixContainersAt true (needsTypeConversionFix k) pathContainers o)
        = some (.arr qs) := by
      rw [fixContainersAt_preserves true (needsTypeConversionFix k)
        segsSpecPorts o (fun i => diverge_portsSegs_specPorts i)]
      exact hq
    rw [fixLimitsAt_preserves (needsTypeConversionFix k) segsSpecPorts _
      (fun i => diverge_limitsItem_specPorts i ("default"))
      (fun i => diverge_limitsItem_specPorts i ("defaultRequest"))]
    exact fixPortsAt_apply pathSpecPorts segsSpecPorts _ qs
      parse_pathSpecPorts h1 hqall
  · intro fs
    constructor
    · intro hnone
      have hhf : hasField fs ("protocol") = false := by
        simp [hasField, hnone]
      constructor
      · show fixPortJson (.obj fs) = _
        simp [fixPortJson, fixPortEntry, hhf]
      · simp only [fixPortEntry, hhf, Bool.false_eq_true, if_false]
        rw [lookupField_append, hnone]
        rfl
    · intro v hv
      have hhf : hasField fs ("protocol") = true := by
        simp [hasField, hv]
      simp [fixPortJson, fixPortEntry, hhf]

/-- C5 (witness): the pipeline at a workload whose first container has one
port without protocol and one UDP port, and whose service port list has one
protocol-less port. -/
theorem C5_witness :
    getAtSegs (portsSegs 0) (FixObjectForPatch k120 sampleObj)
      = some (.arr
          [Json.obj [(("containerPort"), Json.num 80),
                     (("protocol"), Json.str ("TCP"))], portUDP])
    ∧ getAtSegs segsSpecPorts (FixObjectForPatch k120 sampleObj)
      = some (.arr
          [Json.obj [(("containerPort"), Json.num 80),
                     (("protocol"), Json.str ("TCP"))]]) := by
  constructor
  · exact (C5_fixObjectForPatch_ports k120 sampleObj).1 [container1] 0
      container1Fields [portNoProto, portUDP] rfl rfl rfl rfl rfl
  · exact (C5_fixObjectForPatch_ports k120 sampleObj).2.1 [portNoProto]
      rfl rfl

end KluctlK8s
